import Mathlib

/-!
Verification of the Feishu agent-card renderer core: the event
normalizer, the run tracker (status + timeline + draft answer), the
render projector, the card builder and the coalescing update scheduler,
shallowly embedded from the TypeScript sources
`feishu-renderer.ts` and `agent-card-view.ts`.

Strings are modelled as lists of characters (`Str`); the JavaScript
string operations used by the source (trim, split on line breaks,
`startsWith`, whitespace collapsing, the tool-summary regex) are
embedded as executable functions over `Str`.  `Date.now()` is modelled
by an explicit `now : Nat` parameter threaded to every operation that
reads the clock.
-/

set_option maxRecDepth 10000

abbrev Str := List Char

/-- The apostrophe character, built from its code point so the model can
assemble source string literals that contain single quotes. -/
def squote : Char := Char.ofNat 39

/-- JavaScript `\s` / `String.prototype.trim` whitespace class: the
ECMAScript WhiteSpace and LineTerminator code points. -/
def jsWhitespace (c : Char) : Bool :=
  c.isWhitespace || c = Char.ofNat 0x0B || c = Char.ofNat 0x0C ||
  c.toNat = 0xA0 || c.toNat = 0x1680 ||
  (0x2000 ≤ c.toNat && c.toNat ≤ 0x200A) ||
  c.toNat = 0x2028 || c.toNat = 0x2029 || c.toNat = 0x202F ||
  c.toNat = 0x205F || c.toNat = 0x3000 || c.toNat = 0xFEFF

/-- JavaScript `String.prototype.trim`. -/
def jsTrim (s : Str) : Str :=
  ((s.dropWhile jsWhitespace).reverse.dropWhile jsWhitespace).reverse

/-- JavaScript `a.startsWith(b)` is `strStartsWith a b`. -/
def strStartsWith : Str → Str → Bool
  | _, [] => true
  | [], _ :: _ => false
  | c :: cs, d :: ds => c == d && strStartsWith cs ds

/-- `mergeStreamText` from `feishu-renderer.ts` lines 32–38: prefix-aware
merge of streaming text chunks. -/
def mergeStreamText (prev next : Str) : Str :=
  if prev = [] then next
  else if next = [] then prev
  else if strStartsWith next prev then next
  else if strStartsWith prev next then prev
  else prev ++ next

theorem strStartsWith_iff : ∀ s p : Str, strStartsWith s p = true ↔ p <+: s
  | _, [] => by simp [strStartsWith]
  | [], _ :: _ => by simp [strStartsWith]
  | c :: cs, d :: ds => by
    simp only [strStartsWith, Bool.and_eq_true, beq_iff_eq,
      strStartsWith_iff cs ds, List.cons_prefix_cons]
    exact and_congr_left (fun _ => eq_comm)

/-- C2: the streaming text-merge function is idempotent, replaces the
accumulated text wholesale on a proper superstring extension, and
ignores a stale strict-prefix resend. -/
theorem c2_merge_stream_text_algebra :
    (∀ p : Str, mergeStreamText p p = p) ∧
    (∀ p n : Str, p <+: n → p ≠ n → mergeStreamText p n = n) ∧
    (∀ p n : Str, n <+: p → n ≠ p → mergeStreamText p n = p) := by
  refine ⟨?_, ?_, ?_⟩
  · intro p
    by_cases hp : p = []
    · simp [mergeStreamText, hp]
    · have h1 : strStartsWith p p = true :=
        (strStartsWith_iff p p).mpr (List.prefix_refl p)
      simp [mergeStreamText, hp, h1]
  · intro p n hpre hne
    by_cases hp : p = []
    · simp [mergeStreamText, hp]
    · have hn : n ≠ [] := by
        intro h
        exact hp (List.prefix_nil.mp (h ▸ hpre))
      have h1 : strStartsWith n p = true := (strStartsWith_iff n p).mpr hpre
      simp [mergeStreamText, hp, hn, h1]
  · intro p n hpre hne
    have hp : p ≠ [] := by
      intro h
      have hn0 : n = [] := List.prefix_nil.mp (h ▸ hpre)
      exact hne (by rw [hn0, h])
    by_cases hn : n = []
    · simp [mergeStreamText, hp, hn]
    · have hnot : strStartsWith n p = false := by
        by_contra h
        have h' := (strStartsWith_iff n p).mp (by simpa using h)
        exact hne (hpre.eq_of_length (hpre.length_le.antisymm h'.length_le))
      have h2 : strStartsWith p n = true := (strStartsWith_iff p n).mpr hpre
      simp [mergeStreamText, hp, hn, hnot, h2]

/-- C2 witness: the three merge laws evaluated at concrete strings. -/
theorem c2_merge_stream_text_algebra_witness :
    mergeStreamText "ab".data "ab".data = "ab".data ∧
    mergeStreamText "ab".data "abc".data = "abc".data ∧
    mergeStreamText "ab".data "a".data = "ab".data := by
  refine ⟨c2_merge_stream_text_algebra.1 _, ?_, ?_⟩
  · exact c2_merge_stream_text_algebra.2.1 "ab".data "abc".data
      ⟨['c'], by decide⟩ (by decide)
  · exact c2_merge_stream_text_algebra.2.2 "ab".data "a".data
      ⟨['b'], by decide⟩ (by decide)

/-- JavaScript `text.split(/\r?\n/)`. -/
def splitLines : Str → List Str
  | [] => [[]]
  | '\r' :: '\n' :: rest => [] :: splitLines rest
  | '\n' :: rest => [] :: splitLines rest
  | c :: rest =>
    match splitLines rest with
    | [] => [[c]]
    | l :: ls => (c :: l) :: ls

/-- JavaScript `Array.prototype.join` with separator `sep`. -/
def joinSep (sep : Str) : List Str → Str
  | [] => []
  | [l] => l
  | l :: ls => l ++ sep ++ joinSep sep ls

/-- Worker for `collapseRuns`: the flag records whether the previous
character was inside a run already replaced. -/
def collapseRunsAux (p : Char → Bool) (rep : Char) : Bool → Str → Str
  | _, [] => []
  | inRun, c :: rest =>
    if p c then
      if inRun then collapseRunsAux p rep true rest
      else rep :: collapseRunsAux p rep true rest
    else c :: collapseRunsAux p rep false rest

/-- Collapse every maximal run of characters matching `p` into the single
replacement character `rep` (JavaScript `replace(/X+/g, "r")` for a
one-character-class regex `X`). -/
def collapseRuns (p : Char → Bool) (rep : Char) (s : Str) : Str :=
  collapseRunsAux p rep false s

/-- `normalizeWhitespace` from agent-card-view.ts:
`value.replace(/\s+/g, " ").trim()`. -/
def normalizeWhitespace (s : Str) : Str :=
  jsTrim (collapseRuns jsWhitespace ' ' s)

/-- `AgentContentPart` variants carried by an assistant message. -/
inductive AgentContentPart
  | text (text : Str)
  | thinking (text : Str)
  | toolCall (toolName : Str) (toolUseId : Option Str) (startedAt : Option Nat)
  deriving DecidableEq, Repr

/-- An `AgentToolResultPart`; the opaque `raw` payload field is omitted
because the view code stores it without ever reading it. -/
structure AgentToolResultPart where
  toolUseId : Option Str
  text : Option Str
  completedAt : Option Nat
  durationMs : Option Nat
  deriving DecidableEq, Repr

/-- `AgentCoreMessage`: assistant or tool message. -/
inductive AgentCoreMessage
  | assistant (content : List AgentContentPart)
  | tool (toolUseId : Option Str) (content : List AgentToolResultPart)
  deriving DecidableEq, Repr

inductive EntryKind
  | text
  | thinking
  | toolCall
  deriving DecidableEq, Repr

/-- `TimelineEntry` from agent-card-view.ts. -/
structure TimelineEntry where
  kind : EntryKind
  content : Str
  toolUseId : Option Str := none
  toolName : Option Str := none
  durationMs : Option Nat := none
  deriving DecidableEq, Repr

/-- `AgentRunStatus` enum. -/
inductive AgentRunStatus
  | idle
  | thinking
  | toolCalling
  | waitingToolResult
  | completed
  | canceled
  | error
  deriving DecidableEq, Repr

/-- `statusTitles` lookup table. -/
def statusTitle : AgentRunStatus → Str
  | .idle => "等待指令".data
  | .thinking => "思考中".data
  | .toolCalling => "调用工具中".data
  | .waitingToolResult => "等待工具结果".data
  | .completed => "全部完成".data
  | .canceled => "任务已取消".data
  | .error => "执行异常".data

/-- `isTerminalStatus` from agent-card-view.ts. -/
def isTerminalStatus (s : AgentRunStatus) : Bool :=
  s = .completed || s = .canceled || s = .error

/-- `formatToolCall`: backtick-and-quote wrapped tool name. -/
def formatToolCall (toolName : Str) : Str :=
  "调用 `".data ++ [squote] ++ toolName ++ [squote] ++ "` 工具".data

/-- Decimal rendering of a natural number. -/
def natToStr (n : Nat) : Str := (toString n).data

/-- `(Math.max(durationMs, 0) / 1000).toFixed(1)` — seconds with one
decimal.  Rounding of exact-half tenths under binary floating point may
differ from this round-half-up model; no claim depends on that corner. -/
def formatFixed1 (ms : Nat) : Str :=
  let tenths := (ms + 50) / 100
  natToStr (tenths / 10) ++ ".".data ++ natToStr (tenths % 10)

/-- `buildToolCallContent`: the display line for a tool call, with an
optional elapsed-duration tag. -/
def buildToolCallContent (toolName : Str) (durationMs : Option Nat) : Str :=
  match durationMs with
  | some d =>
    formatToolCall toolName ++ " <text_tag color=".data ++ [squote] ++
      "turquoise".data ++ [squote] ++ ">耗时 ".data ++ formatFixed1 d ++
      " 秒</text_tag>".data
  | none => formatToolCall toolName

/-- `resolveDurationMs`: explicit reported duration wins, else elapsed
time from `startedAt` to `completedAt` (or to `now`).  JavaScript
`Math.max(0, end - startedAt)` coincides with truncated `Nat`
subtraction. -/
def resolveDurationMs (reportedDurationMs startedAt completedAt : Option Nat)
    (now : Nat) : Option Nat :=
  match reportedDurationMs with
  | some r => some r
  | none =>
    match startedAt with
    | some s => some (completedAt.getD now - s)
    | none => none

/-- JavaScript truthiness of an optional string id: the empty string is
falsy, so `some []` behaves like an absent id wherever the source tests
the id with `if (id)`. -/
def truthyId : Option Str → Option Str
  | some s => if s = [] then none else some s
  | none => none

/-- The per-projection correlation entry `{index, toolName, startedAt}`. -/
structure ToolEntryMeta where
  index : Nat
  toolName : Str
  startedAt : Option Nat
  deriving DecidableEq, Repr

/-- Accumulator state of `collectDisplayChunks`: the local timeline, the
final-text parts, and the `toolEntryMap` correlation map (a JS `Map`,
modelled newest-binding-first). -/
structure ChunkState where
  timeline : List TimelineEntry
  textParts : List Str
  toolEntryMap : List (Str × ToolEntryMeta)
  deriving Repr

def mapSet (m : List (Str × ToolEntryMeta)) (k : Str) (v : ToolEntryMeta) :
    List (Str × ToolEntryMeta) :=
  (k, v) :: m

def mapGet (m : List (Str × ToolEntryMeta)) (k : Str) : Option ToolEntryMeta :=
  (m.find? (fun kv => decide (kv.1 = k))).map (·.2)

/-- One assistant content part of `collectDisplayChunks`. -/
def processAssistantPart (st : ChunkState) (p : AgentContentPart) : ChunkState :=
  match p with
  | .text t =>
    if normalizeWhitespace t ≠ [] then
      { st with textParts := st.textParts ++ [jsTrim t],
                timeline := st.timeline ++ [{ kind := .text, content := jsTrim t }] }
    else st
  | .thinking t =>
    if normalizeWhitespace t ≠ [] then
      { st with timeline := st.timeline ++ [{ kind := .thinking, content := jsTrim t }] }
    else st
  | .toolCall name id startedAt =>
    let toolName := if name = [] then "unknown-tool".data else name
    let entry : TimelineEntry :=
      { kind := .toolCall, toolName := some toolName, toolUseId := id,
        content := buildToolCallContent toolName none }
    let st' :=
      match truthyId id with
      | some i =>
        { st with toolEntryMap :=
            mapSet st.toolEntryMap i ⟨st.timeline.length, toolName, startedAt⟩ }
      | none => st
    { st' with timeline := st'.timeline ++ [entry] }

/-- One tool-result part of `collectDisplayChunks`: rewrite the
correlated timeline entry in place with the resolved duration. -/
def processToolResultPart (now : Nat) (st : ChunkState) (p : AgentToolResultPart) :
    ChunkState :=
  match truthyId p.toolUseId with
  | none => st
  | some id =>
    match mapGet st.toolEntryMap id with
    | none => st
    | some meta =>
      match st.timeline.get? meta.index with
      | none => st
      | some entry =>
        let d := resolveDurationMs p.durationMs meta.startedAt p.completedAt now
        let entry' : TimelineEntry :=
          { entry with durationMs := d,
                       content := buildToolCallContent meta.toolName d }
        { st with timeline := st.timeline.set meta.index entry' }

def processMessage (now : Nat) (st : ChunkState) (m : AgentCoreMessage) : ChunkState :=
  match m with
  | .assistant content => content.foldl processAssistantPart st
  | .tool _ content => content.foldl (processToolResultPart now) st

structure MessageDisplayChunks where
  timeline : List TimelineEntry
  finalText : Str

/-- `collectDisplayChunks` from agent-card-view.ts: project a message
batch into display entries and a blank-line-joined final-text candidate.
The correlation map lives only for the duration of this call. -/
def collectDisplayChunks (now : Nat) (messages : List AgentCoreMessage) :
    MessageDisplayChunks :=
  let st := messages.foldl (processMessage now) ⟨[], [], []⟩
  ⟨st.timeline, jsTrim (joinSep "\n\n".data st.textParts)⟩

/-- The `AgentRunTracker` mutable state. -/
structure Tracker where
  status : AgentRunStatus := .thinking
  timeline : List TimelineEntry := []
  seen : List Str := []
  draftAnswer : Str := []
  deriving DecidableEq, Repr

def initTracker : Tracker := {}

def kindTag : EntryKind → Str
  | .text => "text".data
  | .thinking => "thinking".data
  | .toolCall => "tool-call".data

/-- `getTimelineEntryKey`: dedup key of a timeline entry. -/
def getTimelineEntryKey (e : TimelineEntry) : Str :=
  match e.kind, truthyId e.toolUseId with
  | .toolCall, some id => "tool:".data ++ id
  | _, _ => kindTag e.kind ++ "|".data ++ e.content

def setStatus (t : Tracker) (s : AgentRunStatus) : Tracker := { t with status := s }

def setDraftAnswer (t : Tracker) (a : Str) : Tracker := { t with draftAnswer := a }

def resetTracker (_ : Tracker) : Tracker := initTracker

/-- The per-entry step of `appendMessages`: push unseen entries, replace
an existing tool-call entry in place, drop the rest. -/
def appendEntry (t : Tracker) (e : TimelineEntry) : Tracker :=
  if e.content ≠ [] ∧ getTimelineEntryKey e ∉ t.seen then
    { t with seen := getTimelineEntryKey e :: t.seen,
             timeline := t.timeline ++ [e] }
  else if e.kind = .toolCall ∧ (truthyId e.toolUseId).isSome ∧ e.content ≠ [] then
    match t.timeline.findIdx? (fun item => decide (item.toolUseId = e.toolUseId)) with
    | some i => { t with timeline := t.timeline.set i e }
    | none => t
  else t

/-- `AgentRunTracker.appendMessages`. -/
def appendMessages (t : Tracker) (messages : List AgentCoreMessage) (now : Nat) :
    Tracker :=
  let chunks := collectDisplayChunks now messages
  let t' := chunks.timeline.foldl appendEntry t
  if chunks.finalText ≠ [] then { t' with draftAnswer := chunks.finalText } else t'

/-- Public operations of the run tracker. -/
inductive TrackerOp
  | append (messages : List AgentCoreMessage) (now : Nat)
  | status (s : AgentRunStatus)
  | draft (a : Str)
  | reset

def applyOp (t : Tracker) : TrackerOp → Tracker
  | .append ms now => appendMessages t ms now
  | .status s => setStatus t s
  | .draft a => setDraftAnswer t a
  | .reset => resetTracker t

def applyOps (t : Tracker) (ops : List TrackerOp) : Tracker := ops.foldl applyOp t

/-! ### Timeline deduplication invariant -/

/-- Entries of a timeline carrying a given tool-use id. -/
def entriesWithId (tl : List TimelineEntry) (id : Str) : List TimelineEntry :=
  tl.filter (fun e => decide (e.toolUseId = some id))

/-- Coherence invariant of the tracker state: the dedup set `seen`
records exactly the non-empty tool-use ids present in the timeline, and
each such id owns at most one timeline entry. -/
def TrackerInv (t : Tracker) : Prop :=
  ∀ id : Str, id ≠ [] →
    ((("tool:".data ++ id) ∈ t.seen) ↔ ∃ e ∈ t.timeline, e.toolUseId = some id) ∧
    (entriesWithId t.timeline id).length ≤ 1

/-- Shape property of entries produced by `collectDisplayChunks`: only
tool-call entries carry a tool-use id. -/
def EntryCH (e : TimelineEntry) : Prop :=
  e.toolUseId ≠ none → e.kind = .toolCall

theorem toolKey_ne_tagKey (id c : Str) (k : EntryKind) :
    "tool:".data ++ id ≠ kindTag k ++ "|".data ++ c := by
  cases k
  · intro h
    have h1 : (some 'o' : Option Char) = some 'e' := congrArg (fun l => l.get? 1) h
    exact absurd h1 (by decide)
  · intro h
    have h1 : (some 'o' : Option Char) = some 'h' := congrArg (fun l => l.get? 1) h
    exact absurd h1 (by decide)
  · intro h
    have h1 : (some ':' : Option Char) = some '-' := congrArg (fun l => l.get? 4) h
    exact absurd h1 (by decide)

theorem toolKey_inj {id id' : Str} (h : "tool:".data ++ id = "tool:".data ++ id') :
    id = id' :=
  List.append_cancel_left h

theorem length_filter_set_agree {α : Type} (p : α → Bool) :
    ∀ (l : List α) (i : Nat) (a : α),
      (∀ b, l.get? i = some b → p b = p a) →
      ((l.set i a).filter p).length = (l.filter p).length
  | [], _, _, _ => rfl
  | x :: xs, 0, a, h => by
    have hx : p x = p a := h x rfl
    simp only [List.set, List.filter_cons, hx]
    cases hpa : p a <;> simp
  | x :: xs, i + 1, a, h => by
    have ih := length_filter_set_agree p xs i a (fun b hb => h b hb)
    simp only [List.set, List.filter_cons]
    cases hpx : p x <;> simp [ih]

theorem exists_mem_set_agree {α : Type} (p : α → Prop) :
    ∀ (l : List α) (i : Nat) (a : α),
      (∀ b, l.get? i = some b → (p b ↔ p a)) →
      ((∃ x ∈ l.set i a, p x) ↔ ∃ x ∈ l, p x)
  | [], _, _, _ => Iff.rfl
  | x :: xs, 0, a, h => by
    have hx : p x ↔ p a := h x rfl
    simp only [List.set, List.exists_mem_cons_iff]
    rw [hx]
  | x :: xs, i + 1, a, h => by
    have ih := exists_mem_set_agree p xs i a (fun b hb => h b hb)
    simp only [List.set, List.exists_mem_cons_iff]
    rw [ih]

theorem findIdx?_unique {α : Type} (p : α → Bool) :
    ∀ (l : List α) (i : Nat) (b : α), l.get? i = some b → p b = true →
      (l.filter p).length ≤ 1 → ∀ s, List.findIdx? p l s = some (s + i)
  | [], i, b, hb, _, _, _ => by simp at hb
  | x :: xs, i, b, hb, hpb, hlen, s => by
    by_cases hp : p x = true
    · have hi : i = 0 := by
        cases i with
        | zero => rfl
        | succ j =>
          exfalso
          have hmem : b ∈ xs := List.get?_mem hb
          have hbf : b ∈ xs.filter p := List.mem_filter.mpr ⟨hmem, hpb⟩
          have h1 : 0 < (xs.filter p).length := List.length_pos_of_mem hbf
          rw [List.filter_cons, if_pos hp] at hlen
          simp only [List.length_cons] at hlen
          omega
      subst hi
      rw [List.findIdx?_cons, if_pos hp]
      simp
    · cases i with
      | zero =>
        exfalso
        simp only [List.get?] at hb
        cases hb
        exact hp hpb
      | succ j =>
        have hlen' : (xs.filter p).length ≤ 1 := by
          rwa [List.filter_cons, if_neg hp] at hlen
        have ih := findIdx?_unique p xs j b hb hpb hlen' (s + 1)
        rw [List.findIdx?_cons, if_neg hp, ih]
        congr 1
        omega

theorem findIdx?_spec {α : Type} (p : α → Bool) :
    ∀ (l : List α) (s i : Nat), List.findIdx? p l s = some i →
      s ≤ i ∧ ∃ b, l.get? (i - s) = some b ∧ p b = true
  | [], s, i, h => by simp [List.findIdx?_nil] at h
  | x :: xs, s, i, h => by
    rw [List.findIdx?_cons] at h
    by_cases hp : p x = true
    · rw [if_pos hp] at h
      cases h
      exact ⟨le_refl _, x, by simp, hp⟩
    · rw [if_neg hp] at h
      obtain ⟨hle, b, hb, hpb⟩ := findIdx?_spec p xs (s + 1) i h
      refine ⟨by omega, b, ?_, hpb⟩
      have : i - s = (i - (s + 1)) + 1 := by omega
      rw [this]
      simpa using hb

theorem truthyId_some {o : Option Str} {id : Str} (h : truthyId o = some id) :
    o = some id ∧ id ≠ [] := by
  cases o with
  | none => simp [truthyId] at h
  | some s =>
    by_cases hs : s = [] <;> simp [truthyId, hs] at h
    exact ⟨by rw [h], h ▸ hs⟩

theorem truthyId_none {o : Option Str} (h : truthyId o = none) :
    o = none ∨ o = some [] := by
  cases o with
  | none => exact .inl rfl
  | some s =>
    by_cases hs : s = [] <;> simp [truthyId, hs] at h
    exact .inr (by rw [hs])

theorem getKey_toolCall {e : TimelineEntry} {id : Str}
    (h1 : e.kind = .toolCall) (h2 : truthyId e.toolUseId = some id) :
    getTimelineEntryKey e = "tool:".data ++ id := by
  simp [getTimelineEntryKey, h1, h2]

theorem getKey_of_truthy_none {e : TimelineEntry}
    (h : truthyId e.toolUseId = none) :
    getTimelineEntryKey e = kindTag e.kind ++ "|".data ++ e.content := by
  cases hk : e.kind <;> simp [getTimelineEntryKey, h, hk]

/-- Pushing a fresh entry preserves the coherence invariant. -/
theorem appendEntry_push_inv (t : Tracker) (e : TimelineEntry)
    (hInv : TrackerInv t) (hCH : EntryCH e)
    (hc : e.content ≠ [] ∧ getTimelineEntryKey e ∉ t.seen) :
    TrackerInv { t with seen := getTimelineEntryKey e :: t.seen,
                        timeline := t.timeline ++ [e] } := by
  intro id hid
  obtain ⟨hiff, hcount⟩ := hInv id hid
  rcases htr : truthyId e.toolUseId with _ | id₀
  · -- the pushed entry carries no (truthy) id
    have hkey := getKey_of_truthy_none htr
    have hne : "tool:".data ++ id ≠ getTimelineEntryKey e := by
      rw [hkey]; exact toolKey_ne_tagKey id e.content e.kind
    have heid : e.toolUseId ≠ some id := by
      rcases truthyId_none htr with h | h <;> rw [h]
      · simp
      · intro hc'
        injection hc' with h2
        exact hid h2.symm
    constructor
    · constructor
      · intro hmem
        rcases List.mem_cons.mp hmem with h | h
        · exact absurd h hne
        · obtain ⟨x, hx, hP⟩ := hiff.mp h
          exact ⟨x, List.mem_append_left _ hx, hP⟩
      · rintro ⟨x, hx, hP⟩
        rcases List.mem_append.mp hx with h | h
        · exact List.mem_cons_of_mem _ (hiff.mpr ⟨x, h, hP⟩)
        · rw [List.mem_singleton] at h
          exact absurd (h ▸ hP) heid
    · simp only [entriesWithId, List.filter_append]
      have hnil : List.filter (fun e' => decide (e'.toolUseId = some id)) [e] = [] := by
        simp [heid]
      rw [hnil]
      simpa [entriesWithId] using hcount
  · -- the pushed entry carries a non-empty id
    obtain ⟨heid, hid₀⟩ := truthyId_some htr
    have hkind : e.kind = .toolCall := hCH (by rw [heid]; simp)
    have hkey := getKey_toolCall hkind htr
    constructor
    · constructor
      · intro hmem
        rcases List.mem_cons.mp hmem with h | h
        · rw [hkey] at h
          refine ⟨e, List.mem_append_right _ (List.mem_singleton_self e), ?_⟩
          rw [heid, toolKey_inj h]
        · obtain ⟨x, hx, hP⟩ := hiff.mp h
          exact ⟨x, List.mem_append_left _ hx, hP⟩
      · rintro ⟨x, hx, hP⟩
        rcases List.mem_append.mp hx with h | h
        · exact List.mem_cons_of_mem _ (hiff.mpr ⟨x, h, hP⟩)
        · rw [List.mem_singleton] at h
          subst h
          rw [heid] at hP
          injection hP with h2
          rw [List.mem_cons, hkey, h2]
          exact .inl rfl
    · by_cases hii : id = id₀
      · subst hii
        have hnoseen : ("tool:".data ++ id) ∉ t.seen := by
          have h2 := hc.2
          rwa [hkey] at h2
        have hnone : entriesWithId t.timeline id = [] := by
          rw [entriesWithId, List.filter_eq_nil_iff]
          intro a ha
          simp only [decide_eq_true_eq]
          intro hP
          exact hnoseen (hiff.mpr ⟨a, ha, hP⟩)
        rw [entriesWithId, List.filter_append]
        rw [entriesWithId] at hnone
        rw [hnone]
        simp [heid]
      · have hne2 : (some id₀ : Option Str) ≠ some id := by
          intro h
          injection h with h2
          exact hii h2.symm
        have hnil : List.filter (fun e' => decide (e'.toolUseId = some id)) [e] = [] := by
          simp [heid]
          intro h
          exact absurd (congrArg some h) hne2
        simp only [entriesWithId, List.filter_append, hnil, List.append_nil]
        simpa [entriesWithId] using hcount

/-- Replacing a timeline entry by another one carrying the same
tool-use id preserves the coherence invariant. -/
theorem set_agree_inv (t : Tracker) (e old : TimelineEntry) (i : Nat)
    (hInv : TrackerInv t) (hget : t.timeline.get? i = some old)
    (hagree : old.toolUseId = e.toolUseId) :
    TrackerInv { t with timeline := t.timeline.set i e } := by
  have hagreeP : ∀ (id : Str) (b : TimelineEntry), t.timeline.get? i = some b →
      (b.toolUseId = some id ↔ e.toolUseId = some id) := by
    intro id b hb
    rw [hget] at hb
    injection hb with hb
    rw [← hb, hagree]
  have hagreeB : ∀ (id : Str) (b : TimelineEntry), t.timeline.get? i = some b →
      (decide (b.toolUseId = some id)) = (decide (e.toolUseId = some id)) := by
    intro id b hb
    have h2 := hagreeP id b hb
    by_cases h : e.toolUseId = some id <;> simp [h, h2]
  intro id hid
  obtain ⟨hiff, hcount⟩ := hInv id hid
  constructor
  · show ("tool:".data ++ id ∈ t.seen) ↔
      ∃ x ∈ t.timeline.set i e, x.toolUseId = some id
    rw [exists_mem_set_agree (fun x => x.toolUseId = some id) t.timeline i e
      (hagreeP id)]
    exact hiff
  · show ((t.timeline.set i e).filter
      (fun e' => decide (e'.toolUseId = some id))).length ≤ 1
    rw [length_filter_set_agree (fun e' => decide (e'.toolUseId = some id))
      t.timeline i e (hagreeB id)]
    exact hcount

/-- `appendEntry` preserves the coherence invariant for any entry whose
shape satisfies `EntryCH`. -/
theorem appendEntry_inv (t : Tracker) (e : TimelineEntry)
    (hInv : TrackerInv t) (hCH : EntryCH e) : TrackerInv (appendEntry t e) := by
  rw [appendEntry]
  by_cases hc : e.content ≠ [] ∧ getTimelineEntryKey e ∉ t.seen
  · rw [if_pos hc]
    exact appendEntry_push_inv t e hInv hCH hc
  · rw [if_neg hc]
    by_cases hr : e.kind = .toolCall ∧ (truthyId e.toolUseId).isSome ∧ e.content ≠ []
    · rw [if_pos hr]
      split
      · rename_i i hidx
        obtain ⟨-, b, hb, hpb⟩ := findIdx?_spec _ t.timeline 0 i hidx
        rw [Nat.sub_zero] at hb
        rw [decide_eq_true_eq] at hpb
        exact set_agree_inv t e b i hInv hb hpb
      · exact hInv
    · rw [if_neg hr]
      exact hInv

theorem foldl_appendEntry_inv : ∀ (es : List TimelineEntry) (t : Tracker),
    TrackerInv t → (∀ e ∈ es, EntryCH e) → TrackerInv (es.foldl appendEntry t)
  | [], _, hInv, _ => hInv
  | e :: es, t, hInv, hCH => by
    rw [List.foldl_cons]
    exact foldl_appendEntry_inv es _ (appendEntry_inv t e hInv (hCH e (by simp)))
      (fun x hx => hCH x (by simp [hx]))

/-- All timeline entries of a chunk state satisfy the shape property. -/
def ChunkCH (st : ChunkState) : Prop := ∀ e ∈ st.timeline, EntryCH e

theorem processAssistantPart_CH (st : ChunkState) (p : AgentContentPart)
    (h : ChunkCH st) : ChunkCH (processAssistantPart st p) := by
  cases p with
  | text s =>
    simp only [processAssistantPart]
    by_cases hn : normalizeWhitespace s ≠ []
    · rw [if_pos hn]
      intro e he
      rcases List.mem_append.mp he with h1 | h1
      · exact h e h1
      · rw [List.mem_singleton] at h1
        subst h1
        intro hfalse
        exact absurd rfl hfalse
    · rw [if_neg hn]
      exact h
  | thinking s =>
    simp only [processAssistantPart]
    by_cases hn : normalizeWhitespace s ≠ []
    · rw [if_pos hn]
      intro e he
      rcases List.mem_append.mp he with h1 | h1
      · exact h e h1
      · rw [List.mem_singleton] at h1
        subst h1
        intro hfalse
        exact absurd rfl hfalse
    · rw [if_neg hn]
      exact h
  | toolCall name id startedAt =>
    simp only [processAssistantPart]
    rcases htr : truthyId id with _ | i <;>
      simp only [htr] <;>
      intro e he <;>
      rcases List.mem_append.mp he with h1 | h1 <;>
      first
        | exact h e h1
        | · rw [List.mem_singleton] at h1
            subst h1
            intro _
            rfl

theorem processToolResultPart_CH (now : Nat) (st : ChunkState)
    (p : AgentToolResultPart) (h : ChunkCH st) :
    ChunkCH (processToolResultPart now st p) := by
  rw [processToolResultPart]
  split
  · exact h
  · split
    · exact h
    · split
      · exact h
      · rename_i entry hg
        intro e he
        rcases List.mem_or_eq_of_mem_set he with h1 | h1
        · exact h e h1
        · subst h1
          intro hne
          exact h entry (List.get?_mem hg) hne

theorem foldl_CH {β : Type} (f : ChunkState → β → ChunkState)
    (hf : ∀ st b, ChunkCH st → ChunkCH (f st b)) :
    ∀ (bs : List β) (st : ChunkState), ChunkCH st → ChunkCH (bs.foldl f st)
  | [], _, h => h
  | b :: bs, st, h => by
    rw [List.foldl_cons]
    exact foldl_CH f hf bs (f st b) (hf st b h)

theorem processMessage_CH (now : Nat) (st : ChunkState) (m : AgentCoreMessage)
    (h : ChunkCH st) : ChunkCH (processMessage now st m) := by
  cases m with
  | assistant content =>
    exact foldl_CH processAssistantPart processAssistantPart_CH content st h
  | tool _ content =>
    exact foldl_CH (processToolResultPart now) (processToolResultPart_CH now)
      content st h

theorem collectDisplayChunks_CH (now : Nat) (msgs : List AgentCoreMessage) :
    ∀ e ∈ (collectDisplayChunks now msgs).timeline, EntryCH e := by
  have h := foldl_CH (processMessage now) (processMessage_CH now) msgs
    ⟨[], [], []⟩ (by intro e he; exact absurd he (List.not_mem_nil e))
  exact h

theorem appendMessages_inv (t : Tracker) (msgs : List AgentCoreMessage)
    (now : Nat) (hInv : TrackerInv t) :
    TrackerInv (appendMessages t msgs now) := by
  have h1 := foldl_appendEntry_inv (collectDisplayChunks now msgs).timeline t
    hInv (collectDisplayChunks_CH now msgs)
  simp only [appendMessages]
  by_cases hf : (collectDisplayChunks now msgs).finalText ≠ []
  · rw [if_pos hf]
    intro id hid
    exact h1 id hid
  · rw [if_neg hf]
    exact h1

theorem initTracker_inv : TrackerInv initTracker := by
  intro id hid
  constructor
  · simp [initTracker]
  · simp [initTracker, entriesWithId]

theorem applyOp_inv (t : Tracker) (op : TrackerOp) (h : TrackerInv t) :
    TrackerInv (applyOp t op) := by
  cases op with
  | append ms now => exact appendMessages_inv t ms now h
  | status s => intro id hid; exact h id hid
  | draft a => intro id hid; exact h id hid
  | reset => intro id hid; exact initTracker_inv id hid

theorem applyOps_inv : ∀ (ops : List TrackerOp) (t : Tracker),
    TrackerInv t → TrackerInv (applyOps t ops)
  | [], _, h => h
  | op :: ops, t, h => by
    rw [applyOps, List.foldl_cons]
    exact applyOps_inv ops (applyOp t op) (applyOp_inv t op h)

theorem formatToolCall_ne_nil (n : Str) : formatToolCall n ≠ [] := by
  rw [formatToolCall, List.append_assoc, List.append_assoc, List.append_assoc]
  exact List.append_ne_nil_of_left_ne_nil (by decide) _

theorem buildToolCallContent_ne_nil (nm : Str) (d : Option Nat) :
    buildToolCallContent nm d ≠ [] := by
  cases d with
  | none => exact formatToolCall_ne_nil nm
  | some v =>
    rw [buildToolCallContent]
    rw [show formatToolCall nm ++ " <text_tag color=".data ++ [squote] ++
        "turquoise".data ++ [squote] ++ ">耗时 ".data ++ formatFixed1 v ++
        " 秒</text_tag>".data =
      formatToolCall nm ++ (" <text_tag color=".data ++ ([squote] ++
        ("turquoise".data ++ ([squote] ++ (">耗时 ".data ++ (formatFixed1 v ++
        " 秒</text_tag>".data)))))) from by simp [List.append_assoc]]
    exact List.append_ne_nil_of_left_ne_nil (formatToolCall_ne_nil nm) _

/-- The timeline entry projected from a single tool-call content part. -/
def singleToolCallEntry (name id : Str) : TimelineEntry :=
  ⟨.toolCall,
   buildToolCallContent (if name = [] then "unknown-tool".data else name) none,
   some id, some (if name = [] then "unknown-tool".data else name), none⟩

theorem collect_single_toolCall (now : Nat) (name id : Str) (hid : id ≠ [])
    (s : Option Nat) :
    collectDisplayChunks now [.assistant [.toolCall name (some id) s]] =
      ⟨[singleToolCallEntry name id], []⟩ := by
  simp [collectDisplayChunks, processMessage, processAssistantPart, truthyId,
    hid, joinSep, jsTrim, mapSet, singleToolCallEntry]

theorem appendMessages_single_toolCall (t : Tracker) (name id : Str)
    (hid : id ≠ []) (s : Option Nat) (now : Nat) :
    appendMessages t [.assistant [.toolCall name (some id) s]] now =
      appendEntry t (singleToolCallEntry name id) := by
  rw [appendMessages, collect_single_toolCall now name id hid s]
  simp

/-- A fresh tool-call entry (id not yet seen) is pushed at the end. -/
theorem appendEntry_fresh (t : Tracker) (e : TimelineEntry) (id : Str)
    (hkind : e.kind = .toolCall) (heid : e.toolUseId = some id) (hid : id ≠ [])
    (hc : e.content ≠ []) (hseen : ("tool:".data ++ id) ∉ t.seen) :
    appendEntry t e = { t with seen := ("tool:".data ++ id) :: t.seen,
                               timeline := t.timeline ++ [e] } := by
  have htr : truthyId e.toolUseId = some id := by rw [heid]; simp [truthyId, hid]
  have hkey := getKey_toolCall hkind htr
  rw [appendEntry, if_pos ⟨hc, by rw [hkey]; exact hseen⟩, hkey]

/-- A tool-call entry whose id already owns a timeline entry replaces
that entry in place. -/
theorem appendEntry_replace (t : Tracker) (hInv : TrackerInv t)
    (e : TimelineEntry) (id : Str) (i : Nat) (old : TimelineEntry)
    (hkind : e.kind = .toolCall) (heid : e.toolUseId = some id) (hid : id ≠ [])
    (hc : e.content ≠ []) (hget : t.timeline.get? i = some old)
    (hoid : old.toolUseId = some id) :
    appendEntry t e = { t with timeline := t.timeline.set i e } := by
  have htr : truthyId e.toolUseId = some id := by rw [heid]; simp [truthyId, hid]
  have hkey := getKey_toolCall hkind htr
  have hseen : getTimelineEntryKey e ∈ t.seen := by
    rw [hkey]
    exact ((hInv id hid).1).mpr ⟨old, List.get?_mem hget, hoid⟩
  have hcond : ¬(e.content ≠ [] ∧ getTimelineEntryKey e ∉ t.seen) := by
    intro hcc
    exact hcc.2 hseen
  rw [appendEntry, if_neg hcond, if_pos ⟨hkind, by rw [htr]; rfl, hc⟩]
  have hpb : (fun item => decide (item.toolUseId = e.toolUseId)) old = true := by
    simp [hoid, heid]
  have hcount : (t.timeline.filter
      (fun item => decide (item.toolUseId = e.toolUseId))).length ≤ 1 := by
    have h2 := (hInv id hid).2
    rw [entriesWithId] at h2
    simpa [heid] using h2
  have hfind := findIdx?_unique _ t.timeline i old hget hpb hcount 0
  rw [Nat.zero_add] at hfind
  rw [hfind]

/-- Appending a single tool-call message: the id owns exactly one entry
afterwards, its key is registered, and a second append of the same id
never grows the timeline. -/
theorem append_toolCall_count_one (t : Tracker) (hInv : TrackerInv t)
    (name id : Str) (hid : id ≠ []) (s : Option Nat) (now : Nat) :
    (entriesWithId (appendMessages t
        [.assistant [.toolCall name (some id) s]] now).timeline id).length = 1 ∧
    ("tool:".data ++ id) ∈ (appendMessages t
        [.assistant [.toolCall name (some id) s]] now).seen ∧
    (("tool:".data ++ id) ∈ t.seen →
      (appendMessages t
        [.assistant [.toolCall name (some id) s]] now).timeline.length =
        t.timeline.length) := by
  rw [appendMessages_single_toolCall t name id hid s now]
  have hkind : (singleToolCallEntry name id).kind = .toolCall := rfl
  have heid : (singleToolCallEntry name id).toolUseId = some id := rfl
  have hc : (singleToolCallEntry name id).content ≠ [] :=
    buildToolCallContent_ne_nil _ none
  by_cases hseen : ("tool:".data ++ id) ∈ t.seen
  · obtain ⟨old, hmem, hoid⟩ := ((hInv id hid).1).mp hseen
    obtain ⟨i, hget⟩ := List.mem_iff_get?.mp hmem
    rw [appendEntry_replace t hInv _ id i old hkind heid hid hc hget hoid]
    have hagree : ∀ b, t.timeline.get? i = some b →
        (decide (b.toolUseId = some id)) =
        (decide ((singleToolCallEntry name id).toolUseId = some id)) := by
      intro b hb
      rw [hget] at hb
      injection hb with hb
      rw [← hb, hoid, heid]
    refine ⟨?_, hseen, fun _ => List.length_set t.timeline i _⟩
    show ((t.timeline.set i (singleToolCallEntry name id)).filter
      (fun e' => decide (e'.toolUseId = some id))).length = 1
    rw [length_filter_set_agree _ t.timeline i _ hagree]
    have hle : (t.timeline.filter
        (fun e' => decide (e'.toolUseId = some id))).length ≤ 1 := (hInv id hid).2
    have hpos : 0 < (t.timeline.filter
        (fun e' => decide (e'.toolUseId = some id))).length :=
      List.length_pos_of_mem (List.mem_filter.mpr ⟨hmem, by simp [hoid]⟩)
    omega
  · rw [appendEntry_fresh t _ id hkind heid hid hc hseen]
    have hnone : entriesWithId t.timeline id = [] := by
      rw [entriesWithId, List.filter_eq_nil_iff]
      intro a ha
      simp only [decide_eq_true_eq]
      intro hP
      exact hseen (((hInv id hid).1).mpr ⟨a, ha, hP⟩)
    constructor
    · show ((t.timeline ++ [singleToolCallEntry name id]).filter
        (fun e' => decide (e'.toolUseId = some id))).length = 1
      rw [List.filter_append]
      rw [entriesWithId] at hnone
      rw [hnone]
      simp [heid]
    · exact ⟨List.mem_cons_self _ _, fun h => absurd h hseen⟩

/-- C3: every sequence of tracker operations leaves at most one timeline
entry per distinct non-empty toolUseId, and appending the same tool-call
message twice with an identical toolUseId yields exactly one entry for
that id — the second append replaces in place and never grows the
timeline. -/
theorem c3_tracker_dedup_invariant :
    (∀ (ops : List TrackerOp) (id : Str), id ≠ [] →
      (entriesWithId (applyOps initTracker ops).timeline id).length ≤ 1) ∧
    (∀ (ops : List TrackerOp) (name id : Str) (s : Option Nat)
        (now₁ now₂ : Nat), id ≠ [] →
      (entriesWithId (appendMessages (appendMessages (applyOps initTracker ops)
          [.assistant [.toolCall name (some id) s]] now₁)
          [.assistant [.toolCall name (some id) s]] now₂).timeline id).length
        = 1 ∧
      (appendMessages (appendMessages (applyOps initTracker ops)
          [.assistant [.toolCall name (some id) s]] now₁)
          [.assistant [.toolCall name (some id) s]] now₂).timeline.length =
        (appendMessages (applyOps initTracker ops)
          [.assistant [.toolCall name (some id) s]] now₁).timeline.length) := by
  constructor
  · intro ops id hid
    exact ((applyOps_inv ops initTracker initTracker_inv) id hid).2
  · intro ops name id s now₁ now₂ hid
    have hInv : TrackerInv (applyOps initTracker ops) :=
      applyOps_inv ops initTracker initTracker_inv
    have hInv₁ : TrackerInv (appendMessages (applyOps initTracker ops)
        [.assistant [.toolCall name (some id) s]] now₁) :=
      appendMessages_inv _ _ _ hInv
    have h1 := append_toolCall_count_one _ hInv name id hid s now₁
    have h2 := append_toolCall_count_one _ hInv₁ name id hid s now₂
    exact ⟨h2.1, h2.2.2 h1.2.1⟩

/-- C3 witness: the invariant and the double-append dedup evaluated on a
concrete operation sequence and a concrete tool-call id. -/
theorem c3_tracker_dedup_invariant_witness :
    (entriesWithId (applyOps initTracker
      [.append [.assistant [.text "hi".data]] 0, .status .toolCalling]).timeline
      "t1".data).length ≤ 1 ∧
    (entriesWithId (appendMessages (appendMessages (applyOps initTracker [])
        [.assistant [.toolCall "exec".data (some "t1".data) (some 5)]] 10)
        [.assistant [.toolCall "exec".data (some "t1".data) (some 5)]] 20).timeline
      "t1".data).length = 1 :=
  ⟨c3_tracker_dedup_invariant.1 _ "t1".data (by decide),
   (c3_tracker_dedup_invariant.2 [] "exec".data "t1".data (some 5) 10 20
     (by decide)).1⟩

/-- C10: a later tool-call batch with an already-present toolUseId
replaces the existing entry (even one carrying a recorded duration) with
a freshly projected entry: no duration, plain call label. -/
theorem c10_later_toolcall_discards_duration (ops : List TrackerOp)
    (i : Nat) (id name : Str) (s : Option Nat) (now : Nat)
    (hid : id ≠ [])
    (hget : ((applyOps initTracker ops).timeline.get? i).map
      TimelineEntry.toolUseId = some (some id))
    (_hdur : (((applyOps initTracker ops).timeline.get? i).bind
      TimelineEntry.durationMs).isSome = true) :
    (appendMessages (applyOps initTracker ops)
        [.assistant [.toolCall name (some id) s]] now).timeline.get? i =
      some { kind := .toolCall,
             content := formatToolCall
               (if name = [] then "unknown-tool".data else name),
             toolUseId := some id,
             toolName := some (if name = [] then "unknown-tool".data else name),
             durationMs := none } ∧
    (appendMessages (applyOps initTracker ops)
        [.assistant [.toolCall name (some id) s]] now).timeline.length =
      (applyOps initTracker ops).timeline.length := by
  have hInv : TrackerInv (applyOps initTracker ops) :=
    applyOps_inv ops initTracker initTracker_inv
  rcases hg : (applyOps initTracker ops).timeline.get? i with _ | old
  · rw [hg] at hget
    exact absurd hget (by simp)
  · rw [hg] at hget
    have h2 : some old.toolUseId = some (some id) := hget
    injection h2 with hoid
    rw [appendMessages_single_toolCall _ name id hid s now]
    rw [appendEntry_replace _ hInv _ id i old rfl rfl hid
      (buildToolCallContent_ne_nil _ none) hg hoid]
    constructor
    · show ((applyOps initTracker ops).timeline.set i
        (singleToolCallEntry name id)).get? i = _
      rw [List.get?_set_eq, hg]
      rfl
    · exact List.length_set _ i _

/-- C10 witness: a concrete run records a 500 ms duration for id t1,
then a fresh tool-call batch for t1 wipes it. -/
theorem c10_later_toolcall_discards_duration_witness :
    (appendMessages (applyOps initTracker [TrackerOp.append
        [.assistant [.toolCall "exec".data (some "t1".data) (some 100)],
         .tool (some "t1".data)
           [⟨some "t1".data, some "ok".data, some 700, some 500⟩]] 800])
      [.assistant [.toolCall "web".data (some "t1".data) (some 900)]]
      1000).timeline.get? 0 =
      some { kind := .toolCall,
             content := formatToolCall
               (if "web".data = [] then "unknown-tool".data else "web".data),
             toolUseId := some "t1".data,
             toolName := some (if "web".data = [] then "unknown-tool".data
               else "web".data),
             durationMs := none } :=
  (c10_later_toolcall_discards_duration
    [TrackerOp.append
        [.assistant [.toolCall "exec".data (some "t1".data) (some 100)],
         .tool (some "t1".data)
           [⟨some "t1".data, some "ok".data, some 700, some 500⟩]] 800]
    0 "t1".data "web".data (some 900) 1000
    (by decide) (by decide) (by decide)).1

/-- C4 counterexample: a tool-call entry exists for t1, then a matching
tool-result arrives in a later batch — the tracker is left completely
unchanged (no in-place duration rewrite happens), because the
correlation map lives only inside one projection call. -/
theorem c4_cross_batch_result_counterexample :
    appendMessages (appendMessages initTracker
        [.assistant [.toolCall "exec".data (some "t1".data) (some 0)]] 0)
      [.tool (some "t1".data)
        [⟨some "t1".data, some "done".data, some 700, some 500⟩]] 800 =
      appendMessages initTracker
        [.assistant [.toolCall "exec".data (some "t1".data) (some 0)]] 0 ∧
    (appendMessages initTracker
        [.assistant [.toolCall "exec".data (some "t1".data) (some 0)]]
        0).timeline.map TimelineEntry.durationMs = [none] := by
  constructor
  · decide
  · decide

theorem foldl_toolResult_empty (now : Nat) :
    ∀ parts : List AgentToolResultPart,
      parts.foldl (processToolResultPart now) ⟨[], [], []⟩ = ⟨[], [], []⟩
  | [] => rfl
  | p :: ps => by
    rw [List.foldl_cons]
    have h : processToolResultPart now ⟨[], [], []⟩ p = ⟨[], [], []⟩ := by
      rw [processToolResultPart]
      split
      · rfl
      · split
        · rfl
        · rename_i meta hm
          exact absurd hm (by simp [mapGet])
    rw [h]
    exact foldl_toolResult_empty now ps

/-- A batch consisting of a single tool message never touches the
tracker: tool-result parts can only rewrite entries correlated inside
the same projection call. -/
theorem appendMessages_toolMsg_noop (t : Tracker) (tid : Option Str)
    (parts : List AgentToolResultPart) (now : Nat) :
    appendMessages t [.tool tid parts] now = t := by
  have h : collectDisplayChunks now [.tool tid parts] =
      (⟨[], []⟩ : MessageDisplayChunks) := by
    rw [collectDisplayChunks]
    simp only [List.foldl_cons, List.foldl_nil, processMessage]
    rw [foldl_toolResult_empty now parts]
    rfl
  simp [appendMessages, h]

theorem collect_call_and_result (now : Nat) (name id : Str) (hid : id ≠ [])
    (s : Nat) (txt : Option Str) (comp rep : Option Nat) (tid : Option Str) :
    collectDisplayChunks now
      [.assistant [.toolCall name (some id) (some s)],
       .tool tid [⟨some id, txt, comp, rep⟩]] =
      ⟨[⟨.toolCall,
         buildToolCallContent (if name = [] then "unknown-tool".data else name)
           (resolveDurationMs rep (some s) comp now),
         some id, some (if name = [] then "unknown-tool".data else name),
         resolveDurationMs rep (some s) comp now⟩], []⟩ := by
  simp [collectDisplayChunks, processMessage, processAssistantPart,
    processToolResultPart, truthyId, hid, mapGet, mapSet, joinSep, jsTrim,
    List.set]

/-- C4 amended: a bare tool-result batch never rewrites anything (the
correlation map is per projection call); the in-place duration rewrite
happens when the tool-call part and its matching tool-result arrive in
the same batch, with the duration resolved by priority — explicit
reported duration first, else completedAt − startedAt, else
now − startedAt, else none. -/
theorem c4_same_batch_result_rewrite :
    (∀ (t : Tracker) (tid : Option Str) (parts : List AgentToolResultPart)
        (now : Nat), appendMessages t [.tool tid parts] now = t) ∧
    (∀ (ops : List TrackerOp) (i : Nat) (id name : Str) (s : Nat)
        (txt : Option Str) (comp rep : Option Nat) (tid : Option Str)
        (now : Nat), id ≠ [] →
      ((applyOps initTracker ops).timeline.get? i).map
          TimelineEntry.toolUseId = some (some id) →
      (appendMessages (applyOps initTracker ops)
          [.assistant [.toolCall name (some id) (some s)],
           .tool tid [⟨some id, txt, comp, rep⟩]] now).timeline.get? i =
        some ⟨.toolCall,
          buildToolCallContent (if name = [] then "unknown-tool".data else name)
            (resolveDurationMs rep (some s) comp now),
          some id, some (if name = [] then "unknown-tool".data else name),
          resolveDurationMs rep (some s) comp now⟩ ∧
      (appendMessages (applyOps initTracker ops)
          [.assistant [.toolCall name (some id) (some s)],
           .tool tid [⟨some id, txt, comp, rep⟩]] now).timeline.length =
        (applyOps initTracker ops).timeline.length) ∧
    (∀ (r : Nat) (s' c' : Option Nat) (n' : Nat),
      resolveDurationMs (some r) s' c' n' = some r) ∧
    (∀ (s' c' n' : Nat),
      resolveDurationMs none (some s') (some c') n' = some (c' - s')) ∧
    (∀ (s' n' : Nat), resolveDurationMs none (some s') none n' = some (n' - s')) ∧
    (∀ (c' : Option Nat) (n' : Nat), resolveDurationMs none none c' n' = none) := by
  refine ⟨appendMessages_toolMsg_noop, ?_, fun _ _ _ _ => rfl,
    fun _ _ _ => rfl, fun _ _ => rfl, fun _ _ => rfl⟩
  intro ops i id name s txt comp rep tid now hid hget
  have hInv : TrackerInv (applyOps initTracker ops) :=
    applyOps_inv ops initTracker initTracker_inv
  rcases hg : (applyOps initTracker ops).timeline.get? i with _ | old
  · rw [hg] at hget
    exact absurd hget (by simp)
  · rw [hg] at hget
    have h2 : some old.toolUseId = some (some id) := hget
    injection h2 with hoid
    have hb : appendMessages (applyOps initTracker ops)
        [.assistant [.toolCall name (some id) (some s)],
         .tool tid [⟨some id, txt, comp, rep⟩]] now =
        appendEntry (applyOps initTracker ops)
          ⟨.toolCall,
           buildToolCallContent (if name = [] then "unknown-tool".data else name)
             (resolveDurationMs rep (some s) comp now),
           some id, some (if name = [] then "unknown-tool".data else name),
           resolveDurationMs rep (some s) comp now⟩ := by
      rw [appendMessages, collect_call_and_result now name id hid s txt comp rep tid]
      simp
    rw [hb, appendEntry_replace _ hInv _ id i old rfl rfl hid
      (buildToolCallContent_ne_nil _ _) hg hoid]
    constructor
    · show ((applyOps initTracker ops).timeline.set i _).get? i = _
      rw [List.get?_set_eq, hg]
      rfl
    · exact List.length_set _ i _

/-- C4 amended witness: concrete same-batch call-and-result for id t1
rewrites the single entry with the reported 500 ms duration; a bare
tool-result batch is a no-op. -/
theorem c4_same_batch_result_rewrite_witness :
    appendMessages initTracker
      [.tool (some "t1".data)
        [⟨some "t1".data, some "x".data, some 9, some 7⟩]] 11 = initTracker ∧
    (appendMessages (applyOps initTracker [TrackerOp.append
        [.assistant [.toolCall "exec".data (some "t1".data) (some 100)]] 150])
      [.assistant [.toolCall "exec".data (some "t1".data) (some 200)],
       .tool (some "t1".data)
         [⟨some "t1".data, some "ok".data, some 700, some 500⟩]]
      800).timeline.get? 0 =
      some ⟨.toolCall,
        buildToolCallContent
          (if "exec".data = [] then "unknown-tool".data else "exec".data)
          (resolveDurationMs (some 500) (some 200) (some 700) 800),
        some "t1".data,
        some (if "exec".data = [] then "unknown-tool".data else "exec".data),
        resolveDurationMs (some 500) (some 200) (some 700) 800⟩ :=
  ⟨c4_same_batch_result_rewrite.1 initTracker (some "t1".data) _ 11,
   (c4_same_batch_result_rewrite.2.1
     [TrackerOp.append
        [.assistant [.toolCall "exec".data (some "t1".data) (some 100)]] 150]
     0 "t1".data "exec".data 200 (some "ok".data) (some 700) (some 500)
     (some "t1".data) 800 (by decide) (by decide)).1⟩

/-! ### Render projector -/

/-- `RenderState` from agent-card-view.ts. -/
structure RenderState where
  status : AgentRunStatus
  headline : Str
  body : Str
  timeline : List TimelineEntry
  finalAnswer : Option Str
  isTimelineCollapsed : Bool
  timelineMarkdown : Str
  showTimelinePanel : Bool
  deriving DecidableEq, Repr

/-- `formatTimelineEntry`. -/
def formatTimelineEntry (e : TimelineEntry) : Str :=
  if e.content = [] then []
  else
    match e.kind with
    | .thinking => "*思考*: ".data ++ e.content
    | _ => e.content

/-- `filterTimelineEntries`: drop text entries whose whitespace-normalized
content equals the normalized final answer. `answerText = []` models both
the absent argument and the JS-falsy empty string. -/
def filterTimelineEntries (entries : List TimelineEntry) (answerText : Str) :
    List TimelineEntry :=
  if answerText = [] then entries
  else if normalizeWhitespace answerText = [] then entries
  else entries.filter (fun e =>
    if e.kind = .text then
      decide (normalizeWhitespace e.content ≠ normalizeWhitespace answerText)
    else true)

/-- `AgentRunTracker.buildRenderState`. -/
def buildRenderState (t : Tracker) (collapseTimeline : Bool) : RenderState :=
  let headline := statusTitle t.status
  let showFinalAnswer := isTerminalStatus t.status
  let finalAnswerText := jsTrim t.draftAnswer
  let filteredTimeline := filterTimelineEntries t.timeline
    (if showFinalAnswer then finalAnswerText else [])
  let timelineMarkdown := joinSep "\n".data
    ((filteredTimeline.map formatTimelineEntry).filter (fun l => l ≠ []))
  let hasTimeline := decide (filteredTimeline ≠ [])
  if showFinalAnswer then
    { status := t.status, headline := headline,
      body := if finalAnswerText = [] then "暂无最终回复".data else finalAnswerText,
      timeline := filteredTimeline,
      finalAnswer := if finalAnswerText = [] then none else some finalAnswerText,
      isTimelineCollapsed := collapseTimeline,
      timelineMarkdown := timelineMarkdown,
      showTimelinePanel := hasTimeline }
  else
    { status := t.status, headline := headline,
      body := if timelineMarkdown ≠ [] then timelineMarkdown
              else if t.draftAnswer ≠ [] then t.draftAnswer
              else "思考中...".data,
      timeline := filteredTimeline,
      finalAnswer := none,
      isTimelineCollapsed := collapseTimeline,
      timelineMarkdown := timelineMarkdown,
      showTimelinePanel := false }

theorem jsTrim_eq_nil_iff (s : Str) :
    jsTrim s = [] ↔ ∀ c ∈ s, jsWhitespace c = true := by
  rw [jsTrim]
  constructor
  · intro h c hc
    rw [List.reverse_eq_nil_iff, List.dropWhile_eq_nil_iff] at h
    by_cases hdrop : c ∈ s.dropWhile jsWhitespace
    · exact h c (List.mem_reverse.mpr hdrop)
    · have hsplit := List.takeWhile_append_dropWhile (p := jsWhitespace) (l := s)
      rw [← hsplit] at hc
      rcases List.mem_append.mp hc with h1 | h1
      · exact List.mem_takeWhile_imp h1
      · exact absurd h1 hdrop
  · intro h
    rw [List.reverse_eq_nil_iff, List.dropWhile_eq_nil_iff]
    intro x hx
    exact h x ((List.dropWhile_sublist jsWhitespace).subset (List.mem_reverse.mp hx))

theorem collapseAux_all_ws_iff (b : Bool) : ∀ s : Str,
    (∀ c ∈ collapseRunsAux jsWhitespace ' ' b s, jsWhitespace c = true) ↔
    (∀ c ∈ s, jsWhitespace c = true)
  | [] => by cases b <;> simp [collapseRunsAux]
  | c :: rest => by
    rw [collapseRunsAux]
    by_cases hc : jsWhitespace c = true
    · rw [if_pos hc]
      have ih1 := collapseAux_all_ws_iff true rest
      cases b
      · simp only [Bool.false_eq_true, if_false, List.mem_cons]
        constructor
        · intro h x hx
          rcases hx with h1 | h1
          · rw [h1]; exact hc
          · exact ih1.mp (fun y hy => h y (.inr hy)) x h1
        · intro h x hx
          rcases hx with h1 | h1
          · rw [h1]; decide
          · exact ih1.mpr (fun y hy => h y (.inr hy)) x h1
      · simp only [if_true, List.mem_cons]
        constructor
        · intro h x hx
          rcases hx with h1 | h1
          · rw [h1]; exact hc
          · exact ih1.mp h x h1
        · intro h x hx
          exact ih1.mpr (fun y hy => h y (.inr hy)) x hx
    · rw [if_neg hc]
      have ih0 := collapseAux_all_ws_iff false rest
      simp only [List.mem_cons]
      constructor
      · intro h x hx
        rcases hx with h1 | h1
        · exact h x (.inl h1)
        · exact ih0.mp (fun y hy => h y (.inr hy)) x h1
      · intro h x hx
        rcases hx with h1 | h1
        · exact h x (.inl h1)
        · exact ih0.mpr (fun y hy => h y (.inr hy)) x h1

theorem collapse_all_ws_iff (s : Str) :
    (∀ c ∈ collapseRuns jsWhitespace ' ' s, jsWhitespace c = true) ↔
    (∀ c ∈ s, jsWhitespace c = true) :=
  collapseAux_all_ws_iff false s

theorem normalizeWhitespace_eq_nil_iff (s : Str) :
    normalizeWhitespace s = [] ↔ ∀ c ∈ s, jsWhitespace c = true := by
  rw [normalizeWhitespace, jsTrim_eq_nil_iff, collapse_all_ws_iff]

theorem dropWhile_head_false {p : Char → Bool} :
    ∀ {l : Str} {x : Char} {xs : Str}, l.dropWhile p = x :: xs → p x = false
  | [], x, xs, h => by simp at h
  | c :: cs, x, xs, h => by
    by_cases hc : p c
    · rw [List.dropWhile_cons, if_pos hc] at h
      exact dropWhile_head_false h
    · rw [List.dropWhile_cons, if_neg hc] at h
      cases h
      exact Bool.eq_false_iff.mpr hc

theorem normalizeWhitespace_jsTrim_ne_nil {s : Str} (h : jsTrim s ≠ []) :
    normalizeWhitespace (jsTrim s) ≠ [] := by
  rw [Ne, normalizeWhitespace_eq_nil_iff]
  intro hall
  rcases hr : (s.dropWhile jsWhitespace).reverse.dropWhile jsWhitespace
    with _ | ⟨x, xs⟩
  · exact h (by rw [jsTrim, hr]; rfl)
  · have hx : jsWhitespace x = false := dropWhile_head_false hr
    have hmem : x ∈ jsTrim s := by
      rw [jsTrim, hr]
      simp
    rw [hall x hmem] at hx
    cases hx

theorem buildRenderState_terminal_timeline (t : Tracker) (collapse : Bool)
    (hterm : isTerminalStatus t.status = true)
    (hdraft : jsTrim t.draftAnswer ≠ []) :
    (buildRenderState t collapse).timeline =
      t.timeline.filter (fun e =>
        if e.kind = .text then
          decide (normalizeWhitespace e.content ≠
            normalizeWhitespace (jsTrim t.draftAnswer))
        else true) := by
  have hna := normalizeWhitespace_jsTrim_ne_nil hdraft
  simp only [buildRenderState, hterm, if_pos, if_true]
  rw [filterTimelineEntries, if_neg (by simpa using hdraft),
    if_neg (by simpa using hna)]

/-- C7: at a terminal status with a non-empty trimmed draft answer, the
rendered timeline drops exactly the text entries whose normalized content
equals the normalized final answer (non-text entries are kept), the final
answer is still shown as the body, and the timeline panel is shown iff
at least one entry survives the filtering. -/
theorem c7_terminal_filtering (t : Tracker) (collapse : Bool)
    (hterm : isTerminalStatus t.status = true)
    (hdraft : jsTrim t.draftAnswer ≠ []) :
    (buildRenderState t collapse).timeline =
      t.timeline.filter (fun e =>
        if e.kind = .text then
          decide (normalizeWhitespace e.content ≠
            normalizeWhitespace (jsTrim t.draftAnswer))
        else true) ∧
    (∀ e ∈ (buildRenderState t collapse).timeline, e.kind = .text →
      normalizeWhitespace e.content ≠
        normalizeWhitespace (jsTrim t.draftAnswer)) ∧
    (∀ e ∈ t.timeline, e.kind ≠ .text →
      e ∈ (buildRenderState t collapse).timeline) ∧
    (buildRenderState t collapse).body = jsTrim t.draftAnswer ∧
    (buildRenderState t collapse).finalAnswer = some (jsTrim t.draftAnswer) ∧
    ((buildRenderState t collapse).showTimelinePanel = true ↔
      (buildRenderState t collapse).timeline ≠ []) := by
  have htl := buildRenderState_terminal_timeline t collapse hterm hdraft
  refine ⟨htl, ?_, ?_, ?_, ?_, ?_⟩
  · intro e he hk
    rw [htl] at he
    have hp := (List.mem_filter.mp he).2
    rw [if_pos hk] at hp
    exact of_decide_eq_true hp
  · intro e he hk
    rw [htl]
    refine List.mem_filter.mpr ⟨he, ?_⟩
    rw [if_neg hk]
  · simp only [buildRenderState, hterm, if_pos, if_true]
    rw [if_neg (by simpa using hdraft)]
  · simp only [buildRenderState, hterm, if_pos, if_true]
    rw [if_neg (by simpa using hdraft)]
  · simp only [buildRenderState, hterm, if_pos, if_true]
    constructor
    · intro h
      exact of_decide_eq_true h
    · intro h
      exact decide_eq_true h

/-- C7 witness: a completed run whose draft answer duplicates the text
entry keeps only the tool-call entry and shows the trimmed answer. -/
theorem c7_terminal_filtering_witness :
    (buildRenderState
      ⟨.completed,
       [⟨.text, "hello".data, none, none, none⟩,
        ⟨.toolCall, "x".data, none, none, none⟩],
       [], "  hello ".data⟩ true).body = jsTrim "  hello ".data :=
  (c7_terminal_filtering
    ⟨.completed,
     [⟨.text, "hello".data, none, none, none⟩,
      ⟨.toolCall, "x".data, none, none, none⟩],
     [], "  hello ".data⟩ true (by decide) (by decide)).2.2.2.1

/-! ### Plain-text tool-summary heuristic -/

/-- `TOOL_NAME_LABELS`: fixed mapping from normalized tool identifiers
to localized display names. -/
def toolNameLabels : List (Str × Str) :=
  [("read".data, "读取文件".data),
   ("write".data, "写入文件".data),
   ("edit".data, "编辑文件".data),
   ("exec".data, "执行命令".data),
   ("process".data, "进程管理".data),
   ("web_search".data, "网页搜索".data),
   ("web_fetch".data, "抓取网页".data),
   ("browser".data, "浏览器".data),
   ("message".data, "发送消息".data),
   ("sessions_list".data, "列会话".data),
   ("sessions_send".data, "跨会话发送".data),
   ("sessions_spawn".data, "派生代理".data),
   ("session_status".data, "会话状态".data),
   ("cron".data, "定时任务".data),
   ("feishu_doc_read".data, "飞书读文档".data),
   ("feishu_doc_write".data, "飞书写文档".data),
   ("feishu_doc_append".data, "飞书追加".data),
   ("feishu_doc_list_blocks".data, "飞书列文档块".data),
   ("feishu_doc_update".data, "飞书更新文档块".data),
   ("feishu_doc_delete_block".data, "飞书删除文档块".data),
   ("feishu_folder_list".data, "飞书列文件夹".data),
   ("feishu_doc_create".data, "飞书创建文档".data),
   ("memory_search".data, "记忆搜索".data),
   ("memory_get".data, "读取记忆".data),
   ("tts".data, "语音合成".data),
   ("canvas".data, "画布控制".data),
   ("nodes".data, "节点管理".data),
   ("gateway".data, "网关管理".data),
   ("agents_list".data, "列出代理".data)]

def lookupToolLabel (key : Str) : Option Str :=
  (toolNameLabels.find? (fun kv => decide (kv.1 = key))).map (·.2)

/-- Characters of the regex class `[A-Za-z0-9_ ]`. -/
def isToolIdentChar (c : Char) : Bool :=
  ('A' ≤ c && c ≤ 'Z') || ('a' ≤ c && c ≤ 'z') ||
  ('0' ≤ c && c ≤ '9') || c = '_' || c = ' '

def isAsciiLetter (c : Char) : Bool :=
  ('A' ≤ c && c ≤ 'Z') || ('a' ≤ c && c ≤ 'z')

/-- The leading bracket class of the source regex,
`[\p{Extended_Pictographic}️‍\s]`, with the
Extended_Pictographic property modelled over the principal emoji blocks
(the full Unicode table is elided; it cannot match ASCII input). -/
def isEmojiPrefixChar (c : Char) : Bool :=
  jsWhitespace c || c.toNat = 0xFE0F || c.toNat = 0x200D ||
  (0x1F000 ≤ c.toNat && c.toNat ≤ 0x1FAFF) ||
  (0x2600 ≤ c.toNat && c.toNat ≤ 0x27BF) ||
  (0x2190 ≤ c.toNat && c.toNat ≤ 0x21FF) ||
  (0x2B00 ≤ c.toNat && c.toNat ≤ 0x2BFF) ||
  c.toNat = 0xA9 || c.toNat = 0xAE || c.toNat = 0x203C || c.toNat = 0x2049

/-- Attempt `\s*:\s*(.*)$` against `rest`, with candidate capture group
`g`: succeeds when `rest` starts, after optional whitespace, with a
colon. -/
def tryGroupEnd (g rest : Str) : Option (Str × Str) :=
  match rest.dropWhile jsWhitespace with
  | ':' :: tail => some (g, tail.dropWhile jsWhitespace)
  | _ => none

/-- Greedy-with-backtracking choice of the capture-group length: the
regex engine prefers the longest `[A-Za-z0-9_ ]{0,60}` match, falling
back to shorter ones until `\s*:` follows. -/
def tryLengths (c : Char) (run after : Str) : Nat → Option (Str × Str)
  | 0 => tryGroupEnd [c] (run ++ after)
  | k + 1 =>
    match tryGroupEnd (c :: run.take (k + 1)) (run.drop (k + 1) ++ after) with
    | some r => some r
    | none => tryLengths c run after k

/-- The tool-line regex
`^\s*[\p{Extended_Pictographic}️‍\s]*([A-Za-z][A-Za-z0-9_ ]{0,60})\s*:\s*(.*)$`
as a matcher returning the two capture groups. -/
def matchToolLine (line : Str) : Option (Str × Str) :=
  match line.dropWhile isEmojiPrefixChar with
  | [] => none
  | c :: rest =>
    if isAsciiLetter c then
      tryLengths c (rest.takeWhile isToolIdentChar)
        (rest.dropWhile isToolIdentChar)
        (min 60 (rest.takeWhile isToolIdentChar).length)
    else none

/-- `rawToolName.toLowerCase().replace(/[-\s]+/g, "_")` (the tool names
involved are ASCII, where `Char.toLower` agrees with JavaScript). -/
def normalizeToolName (raw : Str) : Str :=
  collapseRuns (fun c => c = '-' || jsWhitespace c) '_' (raw.map Char.toLower)

structure ToolSummary where
  toolLines : List Str
  remainingText : Str
  deriving DecidableEq, Repr

/-- One line of `splitToolSummaryLines`: either push a synthetic
tool-call display line or keep the raw line. -/
def splitToolLine (acc : List Str × List Str) (rawLine : Str) :
    List Str × List Str :=
  let line := jsTrim rawLine
  if line = [] then (acc.1, acc.2 ++ [rawLine])
  else
    match matchToolLine line with
    | some (g1, g2) =>
      let rawToolName := jsTrim g1
      let label := (lookupToolLabel (normalizeToolName rawToolName)).getD
        rawToolName
      let header := "调用`".data ++ label ++ "`工具:".data
      let meta := jsTrim g2
      (acc.1 ++ [if meta ≠ [] then header ++ " ".data ++ meta else header],
       acc.2)
    | none => (acc.1, acc.2 ++ [rawLine])

/-- `splitToolSummaryLines` from feishu-renderer.ts. -/
def splitToolSummaryLines (text : Str) : ToolSummary :=
  let acc := (splitLines text).foldl splitToolLine ([], [])
  let remainingText := jsTrim (joinSep "\n".data acc.2)
  ⟨acc.1,
   if acc.1 ≠ [] ∧ remainingText ≠ [] then "\n\n".data ++ remainingText
   else remainingText⟩

/-! ### Verbose events, payload shapes and the renderer controller -/

/-- The fields of a verbose-event data object that `applyVerboseEvent`
reads, each optional to model the `typeof` guards; `meta` models
`safeText(data.meta)` (empty when absent) and `output` is the
`safeText`-rendered value when `data.output !== undefined`. -/
structure EventData where
  text : Option Str := none
  phase : Option Str := none
  name : Option Str := none
  toolCallId : Option Str := none
  isError : Option Bool := none
  meta : Str := []
  output : Option Str := none
  durationMs : Option Nat := none
  error : Option Str := none
  deriving DecidableEq, Repr

/-- The optional `payload` sub-object of a verbose event: it may carry
its own `stream` and `data`, and may itself be read as the data object. -/
structure EventPayloadObj where
  stream : Option Str := none
  data : Option EventData := none
  asData : EventData := {}
  deriving DecidableEq, Repr

structure VerboseEvent where
  stream : Option Str := none
  event : Option Str := none
  data : Option EventData := none
  payload : Option EventPayloadObj := none
  deriving DecidableEq, Repr

/-- `evt?.stream ?? evt?.event ?? evt?.payload?.stream`. -/
def eventStream (evt : VerboseEvent) : Option Str :=
  evt.stream <|> evt.event <|> (evt.payload.bind (·.stream))

/-- `evt?.data ?? evt?.payload?.data ?? evt?.payload ?? {}`. -/
def eventData (evt : VerboseEvent) : EventData :=
  match evt.data with
  | some d => d
  | none =>
    match evt.payload with
    | some pl =>
      match pl.data with
      | some d => d
      | none => pl.asData
    | none => {}

/-- The mutable state threaded through the verbose-event loop: the
tracker and the `assistantBufferState.text` buffer. -/
structure DeliverMut where
  tracker : Tracker
  bufText : Str
  deriving DecidableEq, Repr

/-- `applyVerboseEvent` from feishu-renderer.ts lines 179–270. -/
def applyVerboseEvent (now : Nat) (st : DeliverMut) (evt : VerboseEvent) :
    DeliverMut :=
  let stream := eventStream evt
  let data := eventData evt
  if stream = some "assistant".data then
    let text := data.text.getD []
    if text ≠ [] then
      let tracker := setStatus st.tracker .thinking
      let newBuf :=
        if strStartsWith text st.bufText then text
        else if strStartsWith st.bufText text then st.bufText
        else st.bufText ++ text
      ⟨setDraftAnswer tracker newBuf, newBuf⟩
    else st
  else if stream = some "tool".data then
    let phase := data.phase.getD "unknown".data
    let name := data.name.getD "unknown-tool".data
    let toolCallId := data.toolCallId
    if phase = "start".data then
      let tracker := appendMessages (setStatus st.tracker .toolCalling)
        [.assistant [.toolCall name toolCallId (some now)]] now
      { st with tracker := tracker }
    else if phase = "end".data ∨ phase = "result".data ∨
        phase = "output".data ∨ phase = "error".data then
      let isError := data.isError.getD (decide (phase = "error".data))
      let output := data.output.getD []
      let text := joinSep "\n".data
        (([if output ≠ [] then "输出: ".data ++ output else [],
           if data.meta ≠ [] then "备注: ".data ++ data.meta else [],
           if isError then "错误: true".data else []]).filter (fun l => l ≠ []))
      let tracker := appendMessages st.tracker
        [.tool toolCallId [⟨toolCallId,
          some (if text ≠ [] then text
                else if isError then "工具执行失败".data else "工具执行完成".data),
          some now, data.durationMs⟩]] now
      let tracker := setStatus tracker
        (if isError then .error else .waitingToolResult)
      { st with tracker := tracker }
    else
      { st with tracker := setStatus st.tracker .toolCalling }
  else if stream = some "lifecycle".data then
    let phase := data.phase.getD []
    if phase = "start".data then
      { st with tracker := setStatus st.tracker .thinking }
    else if phase = "error".data then
      let tracker := setDraftAnswer (setStatus st.tracker .error)
        (data.error.getD "执行异常".data)
      { st with tracker := tracker }
    else st
  else st

/-- `inferStatusFromMessages`. -/
def inferStatusFromMessages (messages : List AgentCoreMessage) :
    Option AgentRunStatus :=
  let sawToolCall := messages.any (fun m =>
    match m with
    | .assistant content => content.any (fun part =>
        match part with | .toolCall _ _ _ => true | _ => false)
    | _ => false)
  let sawThinking := messages.any (fun m =>
    match m with
    | .assistant content => content.any (fun part =>
        match part with | .thinking _ => true | _ => false)
    | _ => false)
  if sawToolCall then some .toolCalling
  else if sawThinking then some .thinking
  else none

/-- The inbound `ReplyPayload` shape: a `text` field plus the probed
locations for canonical messages and verbose events.  In this typed
embedding every element of a message list carries a role, so the
duck-typed `hasRole` probe of the source succeeds on any non-empty
candidate. -/
structure Payload where
  text : Option Str := none
  messages : Option (List AgentCoreMessage) := none
  metaAgentMessages : Option (List AgentCoreMessage) := none
  metaMessages : Option (List AgentCoreMessage) := none
  extraMessages : Option (List AgentCoreMessage) := none
  contextMessages : Option (List AgentCoreMessage) := none
  deltaMessages : Option (List AgentCoreMessage) := none
  events : Option (List VerboseEvent) := none
  metaEvents : Option (List VerboseEvent) := none
  extraEvents : Option (List VerboseEvent) := none
  contextEvents : Option (List VerboseEvent) := none
  deltaEvents : Option (List VerboseEvent) := none
  deriving DecidableEq, Repr

/-- First candidate that is a non-empty list (the probing loop shared by
both extractors). -/
def firstNonEmpty {α : Type} : List (Option (List α)) → Option (List α)
  | [] => none
  | some l :: rest => if l.length > 0 then some l else firstNonEmpty rest
  | none :: rest => firstNonEmpty rest

/-- `extractAgentMessages`: probe the fixed location order. -/
def extractAgentMessages (p : Payload) : Option (List AgentCoreMessage) :=
  firstNonEmpty [p.messages, p.metaAgentMessages, p.metaMessages,
    p.extraMessages, p.contextMessages, p.deltaMessages]

/-- `extractVerboseEvents`: probe the fixed location order. -/
def extractVerboseEvents (p : Payload) : Option (List VerboseEvent) :=
  firstNonEmpty [p.events, p.metaEvents, p.extraEvents, p.contextEvents,
    p.deltaEvents]

/-- Elements of the outbound card body. -/
inductive CardElem
  | collapsiblePanel (expanded : Bool) (title : Str) (markdown : Str)
  | markdown (content : Str)
  deriving DecidableEq, Repr

/-- The outbound Lark card document (the nested JSON tree flattened into
a typed record: schema marker, config flags, header, body elements). -/
structure LarkCard where
  schemaVer : Str
  updateMulti : Bool
  wideScreen : Bool
  headerTemplate : Str
  headerTitle : Str
  headerIcon : Str
  elements : List CardElem
  deriving DecidableEq, Repr

/-- `buildLarkCard` from agent-card-view.ts. -/
def buildLarkCard (state : RenderState) : LarkCard :=
  let panels : List CardElem :=
    if state.showTimelinePanel = true ∧ state.timeline ≠ [] then
      [.collapsiblePanel (!state.isTimelineCollapsed) "执行过程".data
        (if state.timelineMarkdown ≠ [] then state.timelineMarkdown
         else "暂无过程记录".data)]
    else []
  let elements := panels ++
    [.markdown (if state.body ≠ [] then state.body else "思考中...".data)]
  let headerTemplate :=
    match state.status with
    | .completed => "green".data
    | .toolCalling => "wathet".data
    | .canceled => "orange".data
    | .error => "red".data
    | .thinking => "blue".data
    | _ => "grey".data
  let headerIcon :=
    match state.status with
    | .completed => "succeed_filled".data
    | .toolCalling => "setting-inter_filled".data
    | .canceled => "ban_filled".data
    | .error => "error_filled".data
    | .thinking => "premium-gleam_filled".data
    | _ => "info_filled".data
  ⟨"2.0".data, true, true, headerTemplate, state.headline, headerIcon, elements⟩

/-- External calls the controller makes: create a message, schedule an
edit through the update controller, or await a full flush. -/
inductive ExtCall
  | create (card : LarkCard)
  | scheduleEdit (card : LarkCard)
  | flushUpdates
  deriving DecidableEq, Repr

/-- The renderer-controller state: the tracker, the two assistant-text
buffers, whether the first send already created the message (the updater
exists exactly when it did), and the trace of external calls. -/
structure CtrlState where
  tracker : Tracker := initTracker
  messageCreated : Bool := false
  assistantBuffer : Str := []
  bufText : Str := []
  calls : List ExtCall := []
  deriving DecidableEq, Repr

def initCtrl : CtrlState := {}

/-- `renderCard`: build the card from the render state; schedule an edit
only when the message exists.  Mention decoration is the identity here
(no mention targets). -/
def renderCard (st : CtrlState) (collapseTimeline : Bool) :
    LarkCard × CtrlState :=
  let card := buildLarkCard (buildRenderState st.tracker collapseTimeline)
  if st.messageCreated then
    (card, { st with calls := st.calls ++ [.scheduleEdit card] })
  else (card, st)

/-- The send-or-edit tail of `deliver`: the first effective delivery
creates the message, later ones render and schedule an edit. -/
def finishDeliver (st : CtrlState) : CtrlState :=
  if st.messageCreated then (renderCard st false).2
  else
    let card := (renderCard st false).1
    { st with calls := st.calls ++ [.create card], messageCreated := true }

/-- `deliver` from feishu-renderer.ts lines 367–432 (the debug logging
is a no-op here). -/
def deliver (st : CtrlState) (p : Payload) (now : Nat) : CtrlState :=
  let messages := extractAgentMessages p
  let events := extractVerboseEvents p
  let payloadText := p.text.getD []
  let st :=
    match events with
    | some evs =>
      let evN := evs.foldl (applyVerboseEvent now) ⟨st.tracker, st.bufText⟩
      { st with tracker := evN.tracker, bufText := evN.bufText,
                assistantBuffer :=
                  if evN.bufText ≠ [] then evN.bufText else st.assistantBuffer }
    | none => st
  match messages with
  | some msgs =>
    let st :=
      match inferStatusFromMessages msgs with
      | some ns => { st with tracker := setStatus st.tracker ns }
      | none => st
    finishDeliver { st with tracker := appendMessages st.tracker msgs now }
  | none =>
    if jsTrim payloadText ≠ [] then
      let summary := splitToolSummaryLines payloadText
      let st :=
        if summary.toolLines ≠ [] then
          let tracker := appendMessages (setStatus st.tracker .toolCalling)
            [.assistant (summary.toolLines.map (fun l => .text l))] now
          { st with tracker := tracker }
        else st
      let st :=
        if summary.remainingText ≠ [] then
          let buf := mergeStreamText st.assistantBuffer summary.remainingText
          let tracker := setDraftAnswer st.tracker buf
          let tracker :=
            if summary.toolLines = [] then setStatus tracker .thinking
            else tracker
          { st with assistantBuffer := buf, tracker := tracker }
        else st
      finishDeliver st
    else
      match events with
      | some _ => finishDeliver st
      | none => st

/-- `finalize` from feishu-renderer.ts lines 433–440. -/
def finalizeCtrl (st : CtrlState) : CtrlState :=
  if st.messageCreated = false ∧ jsTrim st.assistantBuffer = [] ∧
      st.tracker.status = .thinking then st
  else
    let st := { st with tracker := setStatus st.tracker .completed }
    let st := (renderCard st true).2
    if st.messageCreated then { st with calls := st.calls ++ [.flushUpdates] }
    else st

/-- A serialized sequence of deliveries (payload and clock reading). -/
def applyDelivers (st : CtrlState) (ps : List (Payload × Nat)) : CtrlState :=
  ps.foldl (fun s pn => deliver s pn.1 pn.2) st

/-- C8 counterexample: the delivered plain-text payload produces a
timeline entry of kind `text` (not a tool-call entry), and the stored
draft answer keeps the separating blank line, so it is not the literal
string from the claim. -/
theorem c8_plain_text_scenario_counterexample :
    (deliver initCtrl
      { text := some "web_search: query=foo\nHere are the results".data }
      0).tracker.timeline.map TimelineEntry.kind = [.text] ∧
    (deliver initCtrl
      { text := some "web_search: query=foo\nHere are the results".data }
      0).tracker.draftAnswer ≠ "Here are the results".data := by
  constructor
  · decide
  · decide

/-- C8 amended: the delivery sets status ToolCalling, adds exactly one
timeline entry — a text-kind entry whose content is the localized
tool-call line for 网页搜索 — and makes the draft answer the remainder
prefixed by the separating blank line (whose trim is the bare remainder). -/
theorem c8_plain_text_scenario :
    (deliver initCtrl
      { text := some "web_search: query=foo\nHere are the results".data }
      0).tracker.status = .toolCalling ∧
    (deliver initCtrl
      { text := some "web_search: query=foo\nHere are the results".data }
      0).tracker.timeline =
      [⟨.text, "调用`网页搜索`工具: query=foo".data, none, none, none⟩] ∧
    (deliver initCtrl
      { text := some "web_search: query=foo\nHere are the results".data }
      0).tracker.draftAnswer = "\n\nHere are the results".data ∧
    jsTrim (deliver initCtrl
      { text := some "web_search: query=foo\nHere are the results".data }
      0).tracker.draftAnswer = "Here are the results".data := by
  refine ⟨by decide, by decide, by decide, by decide⟩

/-- A verbose lifecycle-error event reporting the message boom. -/
def lifecycleErrorEvent : VerboseEvent :=
  { stream := some "lifecycle".data,
    data := some { phase := some "error".data, error := some "boom".data } }

/-- A payload carrying both one canonical message and one verbose event. -/
def c1BothPayload : Payload :=
  { messages := some [.assistant [.text "hi".data]],
    events := some [lifecycleErrorEvent] }

/-- C1 counterexample: a payload carrying both a canonical message and a
verbose lifecycle-error event mutates the tracker through BOTH paths —
the status can only come from the event, the timeline entry only from
the message — so the result differs from processing the messages alone,
refuting the at-most-one-path contract. -/
theorem c1_both_paths_mutate_counterexample :
    (deliver initCtrl c1BothPayload 0).tracker.status = .error ∧
    (deliver initCtrl c1BothPayload 0).tracker.timeline.map
      TimelineEntry.content = ["hi".data] ∧
    (deliver initCtrl c1BothPayload 0).tracker ≠
      (deliver initCtrl { c1BothPayload with events := none } 0).tracker := by
  refine ⟨by decide, by decide, by decide⟩

/-- C1 amended: the verbose-event path runs first whenever events are
present and both it and the canonical-message path may mutate the
tracker in one delivery; the canonical-message path and the plain-text
path remain mutually exclusive with messages taking priority (the text
field is irrelevant once messages extract), and a payload with no
messages, no events and blank text is skipped entirely. -/
theorem c1_extraction_priority :
    (∀ (st : CtrlState) (p : Payload) (now : Nat) (t₁ t₂ : Option Str),
      (extractAgentMessages p).isSome = true →
      deliver st { p with text := t₁ } now =
        deliver st { p with text := t₂ } now) ∧
    (∀ (st : CtrlState) (p : Payload) (now : Nat),
      extractAgentMessages p = none → extractVerboseEvents p = none →
      jsTrim (p.text.getD []) = [] → deliver st p now = st) := by
  constructor
  · intro st p now t₁ t₂ hm
    obtain ⟨msgs, hmsgs⟩ := Option.isSome_iff_exists.mp hm
    have h₁ : extractAgentMessages { p with text := t₁ } = some msgs := hmsgs
    have h₂ : extractAgentMessages { p with text := t₂ } = some msgs := hmsgs
    have he₁ : extractVerboseEvents { p with text := t₁ } =
      extractVerboseEvents p := rfl
    have he₂ : extractVerboseEvents { p with text := t₂ } =
      extractVerboseEvents p := rfl
    simp only [deliver, h₁, h₂, he₁, he₂]
  · intro st p now h1 h2 h3
    simp only [deliver, h1, h2, h3]
    simp

/-- A one-message payload with a configurable text field. -/
def c1TextPayload (t : Option Str) : Payload :=
  { messages := some [.assistant [.text "hi".data]], text := t }

/-- C1 witness: text irrelevance under a present message list, and the
empty-payload skip, at concrete inputs. -/
theorem c1_extraction_priority_witness :
    deliver initCtrl (c1TextPayload (some "zzz".data)) 0 =
      deliver initCtrl (c1TextPayload none) 0 ∧
    deliver initCtrl {} 0 = initCtrl :=
  ⟨c1_extraction_priority.1 initCtrl (c1TextPayload none) 0
      (some "zzz".data) none (by decide),
   c1_extraction_priority.2 initCtrl {} 0 (by decide) (by decide) (by decide)⟩

theorem finishDeliver_created (s : CtrlState) :
    (finishDeliver s).messageCreated = true := by
  rw [finishDeliver]
  by_cases h : s.messageCreated
  · rw [if_pos h]
    simp only [renderCard]
    rw [if_pos h]
    exact h
  · rw [if_neg h]

theorem deliver_not_created (st : CtrlState) (p : Payload) (now : Nat)
    (h : (deliver st p now).messageCreated = false) : deliver st p now = st := by
  by_cases hm : (extractAgentMessages p).isSome
  · exfalso
    obtain ⟨msgs, hmsgs⟩ := Option.isSome_iff_exists.mp hm
    simp only [deliver, hmsgs] at h
    rw [finishDeliver_created] at h
    cases h
  · rw [Option.not_isSome_iff_eq_none] at hm
    rcases he : extractVerboseEvents p with _ | evs
    · by_cases ht : jsTrim (p.text.getD []) = []
      · simp only [deliver, hm, he]
        rw [if_neg (by simpa using ht)]
      · exfalso
        simp only [deliver, hm, he] at h
        rw [if_pos (by simpa using ht), finishDeliver_created] at h
        cases h
    · exfalso
      by_cases ht : jsTrim (p.text.getD []) = []
      · simp only [deliver, hm, he] at h
        rw [if_neg (by simpa using ht), finishDeliver_created] at h
        cases h
      · simp only [deliver, hm, he] at h
        rw [if_pos (by simpa using ht), finishDeliver_created] at h
        cases h

theorem applyDelivers_not_created : ∀ (ps : List (Payload × Nat)) (st : CtrlState),
    (applyDelivers st ps).messageCreated = false → applyDelivers st ps = st
  | [], _, _ => rfl
  | pn :: ps, st, h => by
    rw [applyDelivers, List.foldl_cons] at h ⊢
    have h2 := applyDelivers_not_created ps (deliver st pn.1 pn.2) h
    rw [applyDelivers] at h2
    rw [h2] at h ⊢
    exact deliver_not_created st pn.1 pn.2 h

theorem buildRenderState_collapsed (t : Tracker) (c : Bool) :
    (buildRenderState t c).isTimelineCollapsed = c := by
  rw [buildRenderState]
  by_cases h : isTerminalStatus t.status = true <;> simp [h]

/-- C9: after any serialized delivery sequence, `finalize` makes no
external call when no message was ever created and no draft text exists;
otherwise (message created) it forces status Completed, renders with the
timeline collapsed, schedules that card and awaits a full flush. -/
theorem c9_finalize_behaviour (ps : List (Payload × Nat)) :
    ((applyDelivers initCtrl ps).messageCreated = false ∧
        jsTrim (applyDelivers initCtrl ps).assistantBuffer = [] →
      finalizeCtrl (applyDelivers initCtrl ps) = applyDelivers initCtrl ps) ∧
    ((applyDelivers initCtrl ps).messageCreated = true →
      (finalizeCtrl (applyDelivers initCtrl ps)).calls =
        (applyDelivers initCtrl ps).calls ++
          [ExtCall.scheduleEdit (buildLarkCard (buildRenderState
              (setStatus (applyDelivers initCtrl ps).tracker .completed) true)),
           ExtCall.flushUpdates] ∧
      (finalizeCtrl (applyDelivers initCtrl ps)).tracker.status = .completed ∧
      (buildRenderState (setStatus (applyDelivers initCtrl ps).tracker
          .completed) true).isTimelineCollapsed = true) := by
  constructor
  · rintro ⟨hmc, _⟩
    have heq := applyDelivers_not_created ps initCtrl hmc
    rw [heq, finalizeCtrl, if_pos ⟨rfl, rfl, rfl⟩]
  · intro hmc
    have hcond : ¬((applyDelivers initCtrl ps).messageCreated = false ∧
        jsTrim (applyDelivers initCtrl ps).assistantBuffer = [] ∧
        (applyDelivers initCtrl ps).tracker.status = .thinking) := by
      rintro ⟨h1, -, -⟩
      rw [hmc] at h1
      cases h1
    rw [finalizeCtrl, if_neg hcond]
    simp only [renderCard, hmc]
    refine ⟨?_, ?_, buildRenderState_collapsed _ true⟩
    · simp [List.append_assoc]
    · simp [setStatus]

/-- C9 witness: the empty run leaves finalize a no-op; one effective
plain-text delivery makes finalize publish a Completed card. -/
theorem c9_finalize_behaviour_witness :
    finalizeCtrl (applyDelivers initCtrl []) = applyDelivers initCtrl [] ∧
    (finalizeCtrl (applyDelivers initCtrl
      [({ text := some "hi".data }, 0)])).tracker.status = .completed :=
  ⟨(c9_finalize_behaviour []).1 ⟨rfl, rfl⟩,
   ((c9_finalize_behaviour [({ text := some "hi".data }, 0)]).2
     (by decide)).2.1⟩

/-! ### Coalescing rate-limited update scheduler -/

/-- The fixed 350 ms minimum publish interval. -/
def MIN_INTERVAL_MS : Nat := 350

/-- Phase of the publish loop: no loop promise in flight, asleep until
the computed wake time, or awaiting the external publish call until its
completion time. -/
inductive SchedPhase
  | idle
  | sleeping (wake : Nat)
  | publishing (finish : Nat)
  deriving DecidableEq, Repr

/-- Discrete-event state of `createCardUpdateController`: the simulated
clock, the single pending slot, the loop phase, `lastSentAt`
(initialized to 0, i.e. the clock epoch), the publish starts recorded as
(time, card), and the publish count (indexing the duration function for
the external calls).  Cards are abstracted by numeric ids. -/
structure SchedSim where
  time : Nat := 0
  pending : Option Nat := none
  phase : SchedPhase := .idle
  lastSentAt : Nat := 0
  pubs : List (Nat × Nat) := []
  pubCount : Nat := 0
  deriving DecidableEq, Repr

def initSched : SchedSim := {}

/-- `Math.max(0, MIN_INTERVAL_MS - (now - lastSentAt))` computed over the
integers exactly as the source does, then the wake time `now + wait`. -/
def wakeAt (now lastSentAt : Nat) : Nat :=
  now + (max 0 ((MIN_INTERVAL_MS : Int) - ((now : Int) - (lastSentAt : Int)))).toNat

def nextEventTime (s : SchedSim) : Option Nat :=
  match s.phase with
  | .idle => none
  | .sleeping w => some w
  | .publishing f => some f

/-- Fire the next internal loop event: at the wake time `flushOnce`
takes the pending slot, stamps `lastSentAt`, and starts the publish;
when the publish completes, the `while (pending)` loop either re-enters
`flushOnce` (recomputing the wait from the current clock) or exits,
setting `inFlight = null`. -/
def fire (dur : Nat → Nat) (s : SchedSim) : SchedSim :=
  match s.phase with
  | .idle => s
  | .sleeping w =>
    match s.pending with
    | some c =>
      { s with time := w, pending := none, lastSentAt := w,
               phase := .publishing (w + dur s.pubCount),
               pubs := s.pubs ++ [(w, c)], pubCount := s.pubCount + 1 }
    | none => { s with time := w, phase := .idle }
  | .publishing f =>
    match s.pending with
    | some _ => { s with time := f, phase := .sleeping (wakeAt f s.lastSentAt) }
    | none => { s with time := f, phase := .idle }

/-- `schedule(card)` at clock time `t`: overwrite the pending slot; when
no loop is in flight, `kick` starts one whose `flushOnce` computes its
wait immediately (a zero wait is a wake at `t` itself). -/
def ingest (s : SchedSim) (t : Nat) (c : Nat) : SchedSim :=
  let s := { s with time := t, pending := some c }
  match s.phase with
  | .idle => { s with phase := .sleeping (wakeAt t s.lastSentAt) }
  | _ => s

/-- Fire every internal event due no later than `t` (fuelled). -/
def advance (dur : Nat → Nat) : Nat → SchedSim → Nat → SchedSim
  | 0, s, _ => s
  | fuel + 1, s, t =>
    match nextEventTime s with
    | some w => if w ≤ t then advance dur fuel (fire dur s) t else s
    | none => s

/-- Run a time-ordered list of schedule requests. -/
def runSched (dur : Nat → Nat) (reqs : List (Nat × Nat)) (s : SchedSim) :
    SchedSim :=
  reqs.foldl (fun s tc => ingest (advance dur 8 s tc.1) tc.1 tc.2) s

/-- `flush()` after the last schedule call: await the in-flight loop to
completion (every publish succeeds in this model, so the loop exits only
with an empty pending slot and the trailing `flushOnce` is a no-op). -/
def drain (dur : Nat → Nat) : Nat → SchedSim → SchedSim
  | 0, s => s
  | fuel + 1, s =>
    match s.phase with
    | .idle => s
    | _ => drain dur fuel (fire dur s)

theorem wakeAt_ge_min (now last : Nat) :
    last + MIN_INTERVAL_MS ≤ wakeAt now last := by
  rw [wakeAt]
  rcases le_or_lt ((MIN_INTERVAL_MS : Int) - ((now : Int) - (last : Int))) 0
    with h | h
  · have h0 : (max 0 ((MIN_INTERVAL_MS : Int) - ((now : Int) - (last : Int)))).toNat
        = 0 := by
      rw [max_eq_left h]
      rfl
    rw [h0]
    have h1 : (last : Int) + (MIN_INTERVAL_MS : Int) ≤ (now : Int) := by omega
    omega
  · have h0 : (max 0 ((MIN_INTERVAL_MS : Int) - ((now : Int) - (last : Int)))) =
        (MIN_INTERVAL_MS : Int) - ((now : Int) - (last : Int)) :=
      max_eq_right h.le
    have h1 : ((max 0 ((MIN_INTERVAL_MS : Int) - ((now : Int) - (last : Int)))).toNat : Int)
        = (MIN_INTERVAL_MS : Int) - ((now : Int) - (last : Int)) := by
      rw [h0, Int.toNat_of_nonneg h.le]
    omega

/-- Spacing invariant of the scheduler: `lastSentAt` is the start time of
the last recorded publish (0 before any), consecutive publish starts are
at least the minimum interval apart, and a sleeping loop never wakes
before `lastSentAt + MIN_INTERVAL_MS`. -/
def SchedInv (s : SchedSim) : Prop :=
  (match s.pubs.getLast? with
   | some pr => s.lastSentAt = pr.1
   | none => s.lastSentAt = 0) ∧
  List.Chain' (fun a b => a.1 + MIN_INTERVAL_MS ≤ b.1) s.pubs ∧
  (∀ w, s.phase = .sleeping w → s.lastSentAt + MIN_INTERVAL_MS ≤ w)

theorem schedInv_init : SchedInv initSched := by
  refine ⟨rfl, List.chain'_nil, ?_⟩
  intro w h
  cases h

theorem schedInv_fire (dur : Nat → Nat) (s : SchedSim) (h : SchedInv s) :
    SchedInv (fire dur s) := by
  obtain ⟨hlast, hchain, hsleep⟩ := h
  rw [fire]
  rcases hph : s.phase with _ | w | f
  · exact ⟨hlast, hchain, hsleep⟩
  · rcases hp : s.pending with _ | c
    · refine ⟨hlast, hchain, ?_⟩
      intro w' hw'
      cases hw'
    · refine ⟨?_, ?_, ?_⟩
      · show (match (s.pubs ++ [(w, c)]).getLast? with
          | some pr => w = pr.1
          | none => w = 0)
        rw [List.getLast?_concat]
      · show List.Chain' _ (s.pubs ++ [(w, c)])
        rw [List.chain'_append]
        refine ⟨hchain, List.chain'_singleton _, ?_⟩
        intro x hx y hy
        rw [List.head?_cons, Option.mem_some_iff] at hy
        subst hy
        have hw := hsleep w hph
        rcases hg : s.pubs.getLast? with _ | pr
        · rw [hg] at hx
          cases hx
        · rw [hg, Option.mem_some_iff] at hx
          subst hx
          rw [hg] at hlast
          rw [← hlast]
          exact hw
      · intro w' hw'
        cases hw'
  · rcases hp : s.pending with _ | c
    · refine ⟨hlast, hchain, ?_⟩
      intro w' hw'
      cases hw'
    · refine ⟨hlast, hchain, ?_⟩
      intro w' hw'
      injection hw' with hw'
      rw [← hw']
      exact wakeAt_ge_min f s.lastSentAt

theorem schedInv_ingest (s : SchedSim) (t c : Nat) (h : SchedInv s) :
    SchedInv (ingest s t c) := by
  obtain ⟨hlast, hchain, hsleep⟩ := h
  rw [ingest]
  rcases hph : s.phase with _ | w | f
  · refine ⟨hlast, hchain, ?_⟩
    intro w' hw'
    injection hw' with hw'
    rw [← hw']
    exact wakeAt_ge_min t s.lastSentAt
  · exact ⟨hlast, hchain, fun w' hw' => hsleep w' (hph ▸ hw')⟩
  · refine ⟨hlast, hchain, ?_⟩
    intro w' hw'
    cases hw'

theorem schedInv_advance (dur : Nat → Nat) :
    ∀ (fuel : Nat) (s : SchedSim) (t : Nat), SchedInv s →
      SchedInv (advance dur fuel s t)
  | 0, _, _, h => h
  | fuel + 1, s, t, h => by
    rw [advance]
    rcases hn : nextEventTime s with _ | w
    · exact h
    · show SchedInv (if w ≤ t then advance dur fuel (fire dur s) t else s)
      by_cases hw : w ≤ t
      · rw [if_pos hw]
        exact schedInv_advance dur fuel (fire dur s) t (schedInv_fire dur s h)
      · rw [if_neg hw]
        exact h

theorem schedInv_drain (dur : Nat → Nat) :
    ∀ (fuel : Nat) (s : SchedSim), SchedInv s → SchedInv (drain dur fuel s)
  | 0, _, h => h
  | fuel + 1, s, h => by
    rw [drain]
    rcases hph : s.phase with _ | w | f
    · exact h
    · exact schedInv_drain dur fuel (fire dur s) (schedInv_fire dur s h)
    · exact schedInv_drain dur fuel (fire dur s) (schedInv_fire dur s h)

theorem schedInv_run (dur : Nat → Nat) :
    ∀ (reqs : List (Nat × Nat)) (s : SchedSim), SchedInv s →
      SchedInv (runSched dur reqs s)
  | [], _, h => h
  | tc :: reqs, s, h => by
    rw [runSched, List.foldl_cons]
    exact schedInv_run dur reqs _
      (schedInv_ingest _ tc.1 tc.2 (schedInv_advance dur 8 s tc.1 h))

theorem ingest_shape (s : SchedSim) (t c : Nat) :
    (ingest s t c).pending = some c ∧ (ingest s t c).phase ≠ .idle := by
  rw [ingest]
  rcases hph : s.phase with _ | w | f
  · exact ⟨rfl, fun h => SchedPhase.noConfusion h⟩
  · exact ⟨rfl, fun h => SchedPhase.noConfusion h⟩
  · exact ⟨rfl, fun h => SchedPhase.noConfusion h⟩

theorem drain_publishes_pending (dur : Nat → Nat) (s : SchedSim) (c : Nat)
    (hp : s.pending = some c) (hph : s.phase ≠ .idle) :
    ∃ w, (drain dur 4 s).pubs = s.pubs ++ [(w, c)] ∧
      (drain dur 4 s).phase = .idle ∧ (drain dur 4 s).pending = none := by
  obtain ⟨time, pending, phase, last, pubs, k⟩ := s
  simp only at hp hph ⊢
  subst hp
  rcases phase with _ | w | f
  · exact absurd rfl hph
  · exact ⟨w, rfl, rfl, rfl⟩
  · exact ⟨wakeAt f last, rfl, rfl, rfl⟩

theorem runSched_append (dur : Nat → Nat) (reqs : List (Nat × Nat))
    (t c : Nat) (s : SchedSim) :
    runSched dur (reqs ++ [(t, c)]) s =
      ingest (advance dur 8 (runSched dur reqs s) t) t c := by
  rw [runSched, List.foldl_append, List.foldl_cons, List.foldl_nil]
  rfl

/-- C6: after the last `schedule(card)` call, flushing (awaiting the
in-flight loop to completion) always publishes exactly that most
recently scheduled card as the final publish, and resolves with the loop
idle and nothing pending. -/
theorem c6_flush_liveness (dur : Nat → Nat) (reqs : List (Nat × Nat))
    (t c : Nat) :
    ∃ w,
      (drain dur 4 (runSched dur (reqs ++ [(t, c)]) initSched)).pubs =
        (runSched dur (reqs ++ [(t, c)]) initSched).pubs ++ [(w, c)] ∧
      (drain dur 4 (runSched dur (reqs ++ [(t, c)]) initSched)).pubs.getLast?
        = some (w, c) ∧
      (drain dur 4 (runSched dur (reqs ++ [(t, c)]) initSched)).phase = .idle ∧
      (drain dur 4 (runSched dur (reqs ++ [(t, c)]) initSched)).pending
        = none := by
  rw [runSched_append]
  have hsh := ingest_shape (advance dur 8 (runSched dur reqs initSched) t) t c
  obtain ⟨w, h1, h2, h3⟩ := drain_publishes_pending dur
    (ingest (advance dur 8 (runSched dur reqs initSched) t) t c) c hsh.1 hsh.2
  refine ⟨w, h1, ?_, h2, h3⟩
  rw [h1, List.getLast?_concat]

/-- C5 counterexample: with the three schedule calls at a realistic
clock origin (T = 1000000 ms, i.e. T, T+50, T+100), two external
publishes occur, not one — `lastSentAt` is initialized to 0, so the very
first publish is immediate; the claimed single publish happens only when
the clock origin itself is within the minimum interval of 0. -/
theorem c5_spacing_counterexample :
    (drain (fun _ => 0) 4 (runSched (fun _ => 0)
      [(1000000, 10), (1000050, 11), (1000100, 12)] initSched)).pubs.length
      = 2 ∧
    (drain (fun _ => 0) 4 (runSched (fun _ => 0)
      [(1000000, 10), (1000050, 11), (1000100, 12)] initSched)).pubs.map
      Prod.snd = [10, 12] := by
  constructor
  · decide
  · decide

/-- C5 amended: at a realistic clock origin the 0/50/100 ms scenario
produces exactly two publishes — the first immediately with the first
document, the second 350 ms later with the 100 ms document; at clock
origin 0 (where `lastSentAt = 0` means "just published") it produces the
single publish the spec describes; and in every execution consecutive
publish starts are never closer than the minimum interval. -/
theorem c5_scheduler_spacing :
    (drain (fun _ => 0) 4 (runSched (fun _ => 0)
      [(1000000, 10), (1000050, 11), (1000100, 12)] initSched)).pubs =
      [(1000000, 10), (1000350, 12)] ∧
    (drain (fun _ => 0) 4 (runSched (fun _ => 0)
      [(0, 10), (50, 11), (100, 12)] initSched)).pubs = [(350, 12)] ∧
    (∀ (dur : Nat → Nat) (reqs : List (Nat × Nat)) (fuel : Nat),
      List.Chain' (fun a b => a.1 + MIN_INTERVAL_MS ≤ b.1)
        (drain dur fuel (runSched dur reqs initSched)).pubs) := by
  refine ⟨by decide, by decide, ?_⟩
  intro dur reqs fuel
  exact (schedInv_drain dur fuel _
    (schedInv_run dur reqs initSched schedInv_init)).2.1
